import Mathlib

/-!
# Lyra2REv2 scan loop and hash-chain pipeline (`algo/lyra2/lyra2rev2.c`)

A shallow embedding of `lyra2rev2.c`.

* Memory is modelled as byte lists (`Bytes`); a byte read is taken modulo 256.
* `uint32_t` values are natural numbers, reduced modulo `2^32` wherever the C
  arithmetic can wrap (`nonce++`, the two `*hashes_done` expressions).
* The process-wide template set and the two thread-local objects are passed
  explicitly (`Globals`).
* The hash primitives and the memory-hard stage live outside this file of the
  repository; they are parameters of the embedding (`Prims`).
* The `do ... while` loop is a fuel-indexed recursion (`scanLoop`); the
  theorems show which fuel suffices.
* The host is little-endian (the module is built for SSE2/AVX/AVX2 targets).
-/

namespace Lyra2rev2

/-- A region of memory, one list element per byte. -/
abbrev Bytes := List Nat

/-- The number of values of a `uint32_t`. -/
def U32 : Nat := 4294967296

/-- The `len` bytes read through a pointer `buf + off`. -/
def readBytes (buf : Bytes) (off len : Nat) : Bytes :=
  (buf.drop off).take len

/-- Byte `i` of a buffer as an `unsigned char`. -/
def byteAt (buf : Bytes) (i : Nat) : Nat :=
  buf.getD i 0 % 256

/-- Word `i` of a byte buffer read as `uint32_t` on the little-endian host
(`hash[i]` after `memcpy( state, hashB, 32 )`). -/
def le32dec (buf : Bytes) (i : Nat) : Nat :=
  byteAt buf (4 * i) + 256 * byteAt buf (4 * i + 1) + 65536 * byteAt buf (4 * i + 2)
    + 16777216 * byteAt buf (4 * i + 3)

/-- The eight `uint32_t` words of a 32-byte digest buffer. -/
def hashWords (buf : Bytes) : List Nat :=
  (List.range 8).map (le32dec buf)

/-- The four bytes of a 32-bit value, most significant first. -/
def be32bytes (x : Nat) : Bytes :=
  [x / 16777216 % 256, x / 65536 % 256, x / 256 % 256, x % 256]

/-- Modelled from the spec: `be32enc` (miner.h, not under src/) stores a 32-bit
value big-endian at a byte offset; used for "writes the nonce into the header
buffer's suffix". -/
def be32enc (buf : Bytes) (off x : Nat) : Bytes :=
  (((buf.set off (x / 16777216 % 256)).set (off + 1) (x / 65536 % 256)).set (off + 2)
    (x / 256 % 256)).set (off + 3) (x % 256)

/-- Modelled from the spec: `swab32_array` (not under src/) byte-swaps `n` 32-bit
words ("normalizes header byte order"); on the little-endian host the memory
image of the result is the big-endian encoding of each source word. -/
def swab32_array (src : List Nat) (n : Nat) : Bytes :=
  (List.range n).flatMap (fun i => be32bytes (src.getD i 0))

/-- Modelled from the spec: `fulltest` (miner.h, defined outside src/) is the
"full multi-word target comparison": digest and target are compared as big
numbers, word 7 most significant, scanning from word `i - 1` down to word 0;
the digest is accepted when it does not exceed the target. -/
def fulltestFrom (hash target : List Nat) : Nat → Bool
  | 0 => true
  | i + 1 =>
    if hash.getD i 0 > target.getD i 0 then false
    else if hash.getD i 0 < target.getD i 0 then true
    else fulltestFrom hash target i

/-- Modelled from the spec: `fulltest( hash, target )` over the eight words. -/
def fulltest (hash target : List Nat) : Bool :=
  fulltestFrom hash target 8

/-- The primitives `lyra2rev2.c` calls and does not define (sph_blake, sph_keccak,
sph_skein, sph_bmw, cubehash_sse2, lyra2): each is a black box.  An `update`
function maps a context and the `len` bytes it is given to the new context; a
`close` function maps a context to the digest it writes (the closed context is
a local that is never read again); `cubehashUpdateDigest sp data` absorbs the
`const` data and returns the digest written through its non-const pointer;
`LYRA2REV2 matrix kLen pwd salt timeCost nRows nCols` returns the output written
to `K` and the matrix it leaves behind. -/
structure Prims where
  cubehashInit : Nat → Nat → Nat → Bytes
  sph_blake256_init : Bytes
  sph_keccak256_init : Bytes
  sph_skein256_init : Bytes
  sph_bmw256_init : Bytes
  sph_blake256 : Bytes → Bytes → Bytes
  sph_blake256_close : Bytes → Bytes
  sph_keccak256 : Bytes → Bytes → Bytes
  sph_keccak256_close : Bytes → Bytes
  cubehashUpdateDigest : Bytes → Bytes → Bytes
  LYRA2REV2 : Bytes → Nat → Bytes → Bytes → Nat → Nat → Nat → Bytes × Bytes
  sph_skein256 : Bytes → Bytes → Bytes
  sph_skein256_close : Bytes → Bytes
  sph_bmw256 : Bytes → Bytes → Bytes
  sph_bmw256_close : Bytes → Bytes

/-- The struct `lyra2v2_ctx_holder`. -/
structure lyra2v2_ctx_holder where
  cube1 : Bytes
  cube2 : Bytes
  blake : Bytes
  keccak : Bytes
  skein : Bytes
  bmw : Bytes
deriving DecidableEq, Repr

/-- The file-scope objects seen by one thread: the static `lyra2v2_ctx`, and the
thread-local `l2v2_blake_mid` and contents of `l2v2_wholeMatrix`. -/
structure Globals where
  lyra2v2_ctx : lyra2v2_ctx_holder
  l2v2_blake_mid : Bytes
  l2v2_wholeMatrix : Bytes
deriving DecidableEq, Repr

/-- The template set written by `init_lyra2rev2_ctx`. -/
def init_lyra2rev2_ctx (P : Prims) : lyra2v2_ctx_holder :=
  { cube1 := P.cubehashInit 256 16 32
    cube2 := P.cubehashInit 256 16 32
    blake := P.sph_blake256_init
    keccak := P.sph_keccak256_init
    skein := P.sph_skein256_init
    bmw := P.sph_bmw256_init }

/-- The function `l2v2_blake256_midstate`: copy the Blake template into the
thread's midstate and absorb the first 64 input bytes. -/
def l2v2_blake256_midstate (P : Prims) (g : Globals) (input : Bytes) : Globals :=
  let mid := g.lyra2v2_ctx.blake
  { g with l2v2_blake_mid := P.sph_blake256 mid (readBytes input 0 64) }

/-- The function `lyra2rev2_hash`: returns the 32 bytes copied to `state` and the
file-scope objects afterwards. -/
def lyra2rev2_hash (P : Prims) (g : Globals) (input : Bytes) : Bytes × Globals :=
  let ctx := g.lyra2v2_ctx
  let midlen := 64
  let tail := 80 - midlen
  let ctx := { ctx with blake := g.l2v2_blake_mid }
  let ctx := { ctx with blake := P.sph_blake256 ctx.blake (readBytes input midlen tail) }
  let hashA := P.sph_blake256_close ctx.blake
  let ctx := { ctx with keccak := P.sph_keccak256 ctx.keccak (readBytes hashA 0 32) }
  let hashB := P.sph_keccak256_close ctx.keccak
  let hashA := P.cubehashUpdateDigest ctx.cube1 (readBytes hashB 0 32)
  let r := P.LYRA2REV2 g.l2v2_wholeMatrix 32 (readBytes hashA 0 32) (readBytes hashA 0 32) 1 4 4
  let hashA := r.1
  let matrix := r.2
  let ctx := { ctx with skein := P.sph_skein256 ctx.skein (readBytes hashA 0 32) }
  let hashB := P.sph_skein256_close ctx.skein
  let hashA := P.cubehashUpdateDigest ctx.cube2 (readBytes hashB 0 32)
  let ctx := { ctx with bmw := P.sph_bmw256 ctx.bmw (readBytes hashA 0 32) }
  let hashB := P.sph_bmw256_close ctx.bmw
  (readBytes hashB 0 32, { g with l2v2_wholeMatrix := matrix })

/-- The pipeline as the spec describes it without the midstate: the first stage
absorbs all 80 header bytes into a fresh copy of the Blake-256 template; the
remaining stages are those of `lyra2rev2_hash`. -/
def pipeline_from_scratch (P : Prims) (g : Globals) (input : Bytes) : Bytes × Globals :=
  let ctx := g.lyra2v2_ctx
  let ctx := { ctx with blake := P.sph_blake256 ctx.blake (readBytes input 0 80) }
  let hashA := P.sph_blake256_close ctx.blake
  let ctx := { ctx with keccak := P.sph_keccak256 ctx.keccak (readBytes hashA 0 32) }
  let hashB := P.sph_keccak256_close ctx.keccak
  let hashA := P.cubehashUpdateDigest ctx.cube1 (readBytes hashB 0 32)
  let r := P.LYRA2REV2 g.l2v2_wholeMatrix 32 (readBytes hashA 0 32) (readBytes hashA 0 32) 1 4 4
  let hashA := r.1
  let matrix := r.2
  let ctx := { ctx with skein := P.sph_skein256 ctx.skein (readBytes hashA 0 32) }
  let hashB := P.sph_skein256_close ctx.skein
  let hashA := P.cubehashUpdateDigest ctx.cube2 (readBytes hashB 0 32)
  let ctx := { ctx with bmw := P.sph_bmw256 ctx.bmw (readBytes hashA 0 32) }
  let hashB := P.sph_bmw256_close ctx.bmw
  (readBytes hashB 0 32, { g with l2v2_wholeMatrix := matrix })

/-- The fields of `struct work` the scan uses. -/
structure Work where
  data : List Nat
  target : List Nat
deriving DecidableEq, Repr

/-- What a call of `scanhash_lyra2rev2` leaves behind: the return value, the
work item, `*hashes_done`, the file-scope objects, and (ghost) the nonces
`lyra2rev2_hash` was invoked on, in order. -/
structure ScanResult where
  ret : Nat
  work : Work
  hashes_done : Nat
  globals : Globals
  calls : List Nat
deriving DecidableEq, Repr

/-- The `do ... while` loop of `scanhash_lyra2rev2`.  `restart i` is the value of
`work_restart[thr_id].restart` read at the end of iteration `i`; `pdata` and
`ptarget` are the work item's arrays as they stand when the loop is entered. -/
def scanLoop (P : Prims) (restart : Nat → Bool) (pdata ptarget : List Nat)
    (first_nonce Htarg max_nonce : Nat) :
    Nat → Nat → Bytes → Nat → Globals → List Nat → Option ScanResult
  | 0, _, _, _, _, _ => none
  | fuel + 1, i, endiandata, nonce, g, calls =>
    let endiandata := be32enc endiandata 76 nonce
    let r := lyra2rev2_hash P g endiandata
    let hash := hashWords r.1
    let g := r.2
    let calls := calls ++ [nonce]
    if hash.getD 7 0 ≤ Htarg ∧ fulltest hash ptarget = true then
      let pdata := pdata.set 19 nonce
      some { ret := 1, work := { data := pdata, target := ptarget },
             hashes_done := (pdata.getD 19 0 + U32 - first_nonce) % U32,
             globals := g, calls := calls }
    else
      let nonce := (nonce + 1) % U32
      if nonce < max_nonce ∧ restart i = false then
        scanLoop P restart pdata ptarget first_nonce Htarg max_nonce fuel (i + 1) endiandata
          nonce g calls
      else
        let pdata := pdata.set 19 nonce
        some { ret := 0, work := { data := pdata, target := ptarget },
               hashes_done := (pdata.getD 19 0 + U32 - first_nonce + 1) % U32,
               globals := g, calls := calls }

/-- The function `scanhash_lyra2rev2`; `none` only when the fuel is used up. -/
def scanhash_lyra2rev2 (P : Prims) (opt_benchmark : Bool) (restart : Nat → Bool) (fuel : Nat)
    (g : Globals) (work : Work) (max_nonce : Nat) : Option ScanResult :=
  let pdata := work.data
  let ptarget := work.target
  let first_nonce := pdata.getD 19 0
  let nonce := first_nonce
  let Htarg := ptarget.getD 7 0
  let ptarget := if opt_benchmark then ptarget.set 7 255 else ptarget
  let endiandata := swab32_array pdata 20
  let g := l2v2_blake256_midstate P g endiandata
  scanLoop P restart pdata ptarget first_nonce Htarg max_nonce fuel 0 endiandata nonce g []

/-- The 80 header bytes `lyra2rev2_hash` is given for nonce `n`: the byte-swapped
copy of the template with the nonce stored big-endian at bytes 76..79. -/
def headerFor (pdata : List Nat) (n : Nat) : Bytes :=
  be32enc (swab32_array pdata 20) 76 n

/-- The file-scope objects just before attempt `k` of a scan over `work` that has
not stopped earlier: the midstate is the one computed at entry, the scratch
matrix is the one the earlier attempts left behind. -/
def globalsAt (P : Prims) (g : Globals) (work : Work) : Nat → Globals
  | 0 => l2v2_blake256_midstate P g (swab32_array work.data 20)
  | k + 1 =>
    (lyra2rev2_hash P (globalsAt P g work k) (headerFor work.data (work.data.getD 19 0 + k))).2

/-- The digest words the scan computes at attempt `k`, on nonce `first_nonce + k`. -/
def scanDigest (P : Prims) (g : Globals) (work : Work) (k : Nat) : List Nat :=
  hashWords (lyra2rev2_hash P (globalsAt P g work k)
    (headerFor work.data (work.data.getD 19 0 + k))).1

/-- The test the scan loop applies to a digest: the single-word pre-check against
`Htarg`, then the full comparison against `ptarget`. -/
def accepts (Htarg : Nat) (ptarget hash : List Nat) : Bool :=
  decide (hash.getD 7 0 ≤ Htarg) && fulltest hash ptarget

/-- The target array the loop compares against: word 7 is overwritten when
`opt_benchmark` is set. -/
def scanTarget (opt_benchmark : Bool) (ptarget : List Nat) : List Nat :=
  if opt_benchmark then ptarget.set 7 255 else ptarget

/-- A stand-in instance of the primitives, for evaluating the embedding on
concrete inputs: contexts are the bytes absorbed so far, each stage passes its
32 input bytes on, except that the Blake stage emits header bytes 48..75 followed
by bytes 79..76 and the memory-hard stage complements every byte, so that word 7
of the final digest is `0xFFFFFFFF - nonce`. -/
def toyPrims : Prims :=
  { cubehashInit := fun _ _ _ => []
    sph_blake256_init := []
    sph_keccak256_init := []
    sph_skein256_init := []
    sph_bmw256_init := []
    sph_blake256 := fun c d => c ++ d
    sph_blake256_close := fun c => readBytes c 48 28 ++ (readBytes c 76 4).reverse
    sph_keccak256 := fun c d => c ++ d
    sph_keccak256_close := fun c => c
    cubehashUpdateDigest := fun sp d => sp ++ d
    LYRA2REV2 := fun _ kLen pwd salt _ _ _ => ((pwd.take kLen).map (fun x => 255 - x % 256), pwd ++ salt)
    sph_skein256 := fun c d => c ++ d
    sph_skein256_close := fun c => c
    sph_bmw256 := fun c d => c ++ d
    sph_bmw256_close := fun c => c }

/-- File-scope objects after `init_lyra2rev2_ctx` and `lyra2rev2_thread_init`
for the stand-in primitives: initialised templates, a zero-filled scratch
matrix of 1536 bytes, no midstate yet. -/
def toyGlobals : Globals :=
  { lyra2v2_ctx := init_lyra2rev2_ctx toyPrims
    l2v2_blake_mid := []
    l2v2_wholeMatrix := List.replicate 1536 0 }

/-- A target met by the stand-in digest of nonce `n` exactly when `n ≥ 7`. -/
def easyUpTo7 : List Nat :=
  [4294967295, 4294967295, 4294967295, 4294967295, 4294967295, 4294967295, 4294967295,
    4294967288]

/-- A work item whose 20 header words are zero except the nonce word. -/
def workAt (first_nonce : Nat) (target : List Nat) : Work :=
  { data := List.replicate 19 0 ++ [first_nonce], target := target }

/-- The eight words of the maximally easy target. -/
def allOnes : List Nat :=
  List.replicate 8 4294967295

/-- The number whose 32-bit words `0, ..., i - 1` (least significant first) are
those of `ws`. -/
def wordsValue (ws : List Nat) : Nat → Nat
  | 0 => 0
  | i + 1 => ws.getD i 0 * U32 ^ i + wordsValue ws i

/-- A work item for the benchmark case: all-zero header with nonce `0xFFFFFF00`,
target words 0..6 all ones and word 7 zero. -/
def benchWork : Work :=
  { data := List.replicate 19 0 ++ [4294967040],
    target := [4294967295, 4294967295, 4294967295, 4294967295, 4294967295, 4294967295,
      4294967295, 0] }

/-- The three compile variants of the zero fill in `lyra2rev2_thread_init`. -/
inductive FillVariant where
  | avx2
  | avx
  | scalar
deriving DecidableEq, Repr

/-- Modelled from the spec: `memset_zero_m256i` (avxdefs.h, not under src/)
"zero-fills" `n` vectors of 32 bytes from the start of the buffer. -/
def memset_zero_m256i (dst : Bytes) (n : Nat) : Bytes :=
  List.replicate (min (32 * n) dst.length) 0 ++ dst.drop (32 * n)

/-- Modelled from the spec: `memset_zero_m128i` (avxdefs.h, not under src/)
"zero-fills" `n` vectors of 16 bytes from the start of the buffer. -/
def memset_zero_m128i (dst : Bytes) (n : Nat) : Bytes :=
  List.replicate (min (16 * n) dst.length) 0 ++ dst.drop (16 * n)

/-- The library call `memset( dst, c, n )`. -/
def memset (dst : Bytes) (c n : Nat) : Bytes :=
  List.replicate (min n dst.length) (c % 256) ++ dst.drop n

/-- What `lyra2rev2_thread_init` leaves behind: the return value, the buffer
`l2v2_wholeMatrix` points to (`none` for `NULL`), and (ghost) the size and
alignment passed to `_mm_malloc`. -/
structure ThreadInit where
  ret : Bool
  l2v2_wholeMatrix : Option Bytes
  requested : Nat × Nat
deriving DecidableEq, Repr

/-- The function `lyra2rev2_thread_init`.  `BLOCK_LEN_INT64` is the macro of
lyra2.h (not under src/); `mm_malloc size align` is the outcome of `_mm_malloc`:
`none` for `NULL`, otherwise the block with whatever bytes it holds.  The byte
count is taken to fit the `int i` it is stored in. -/
def lyra2rev2_thread_init (variant : FillVariant) (BLOCK_LEN_INT64 : Nat)
    (mm_malloc : Nat → Nat → Option Bytes) : ThreadInit :=
  let ROW_LEN_INT64 := BLOCK_LEN_INT64 * 4
  let ROW_LEN_BYTES := ROW_LEN_INT64 * 8
  let i := ROW_LEN_BYTES * 4
  match mm_malloc i 64 with
  | none => { ret := false, l2v2_wholeMatrix := none, requested := (i, 64) }
  | some buf =>
    let buf :=
      match variant with
      | FillVariant.avx2 => memset_zero_m256i buf (i / 32)
      | FillVariant.avx => memset_zero_m128i buf (i / 16)
      | FillVariant.scalar => memset buf 0 i
    { ret := true, l2v2_wholeMatrix := some buf, requested := (i, 64) }

/-- Modelled from the spec: the scratch buffer is "sized by fixed structural
constants (row length × row count)"; for `LYRA2REV2` (lyra2.c, not under src/) a
row is `nCols` blocks of `BLOCK_LEN_INT64` 64-bit words. -/
def matrixBytes (BLOCK_LEN_INT64 nRows nCols : Nat) : Nat :=
  nRows * (BLOCK_LEN_INT64 * nCols * 8)

/-- An allocator that hands out a block of the requested size filled with the
byte `0xAA`, and fails for requests above one megabyte. -/
def toyMalloc (size _align : Nat) : Option Bytes :=
  if size ≤ 1048576 then some (List.replicate size 170) else none

/-- Stage 1 as the spec words it: the midstate absorbs input bytes 64..79 and is
closed to digest A. -/
def Blake256close (P : Prims) (midstate input : Bytes) : Bytes :=
  P.sph_blake256_close (P.sph_blake256 midstate (readBytes input 64 16))

/-- Stage 2: a copy of the Keccak template absorbs 32 bytes and is closed. -/
def Keccak256 (P : Prims) (ctx : lyra2v2_ctx_holder) (d : Bytes) : Bytes :=
  P.sph_keccak256_close (P.sph_keccak256 ctx.keccak (readBytes d 0 32))

/-- Stage 3: the first CubeHash instance absorbs 32 bytes and emits its digest. -/
def Cube1 (P : Prims) (ctx : lyra2v2_ctx_holder) (d : Bytes) : Bytes :=
  P.cubehashUpdateDigest ctx.cube1 (readBytes d 0 32)

/-- Stage 4: the memory-hard stage on the scratch matrix, with the same 32 bytes
as password and salt, 32 output bytes, `timeCost = 1`, `nRows = 4`, `nCols = 4`. -/
def Lyra2REv2 (P : Prims) (matrix d : Bytes) : Bytes :=
  (P.LYRA2REV2 matrix 32 (readBytes d 0 32) (readBytes d 0 32) 1 4 4).1

/-- Stage 5: a copy of the Skein template absorbs 32 bytes and is closed. -/
def Skein256 (P : Prims) (ctx : lyra2v2_ctx_holder) (d : Bytes) : Bytes :=
  P.sph_skein256_close (P.sph_skein256 ctx.skein (readBytes d 0 32))

/-- Stage 6: the second CubeHash instance absorbs 32 bytes and emits its digest. -/
def Cube2 (P : Prims) (ctx : lyra2v2_ctx_holder) (d : Bytes) : Bytes :=
  P.cubehashUpdateDigest ctx.cube2 (readBytes d 0 32)

/-- Stage 7: a copy of the BMW template absorbs 32 bytes and is closed. -/
def BMW256 (P : Prims) (ctx : lyra2v2_ctx_holder) (d : Bytes) : Bytes :=
  P.sph_bmw256_close (P.sph_bmw256 ctx.bmw (readBytes d 0 32))

/-- The statement `cubehashUpdateDigest( sp, (byte*) hashA, (const byte*) hashB, 32 )`
of lines 65-66 and 73-74 as a map on the two digest buffers: the 32 bytes of
`hashB` are the data, the digest is written to `hashA`. -/
def cubehash_step (P : Prims) (sp hashA hashB : Bytes) : Bytes × Bytes :=
  let _old := hashA
  (P.cubehashUpdateDigest sp (readBytes hashB 0 32), hashB)

/-- The bytes passed as `data` to `cubehashUpdateDigest` when the digest buffers
hold `hashA` and `hashB`. -/
def cubehash_step_data (hashA hashB : Bytes) : Bytes :=
  let _old := hashA
  readBytes hashB 0 32

/-- The header `H_n` as the claim words it: the word-wise byte-swapped copy of
`work->data` words 0..18, followed by the big-endian encoding of `n` in bytes
76..79. -/
def specHeader (pdata : List Nat) (n : Nat) : Bytes :=
  (List.range 19).flatMap (fun i => be32bytes (pdata.getD i 0)) ++ be32bytes n

/-! ## Shared lemmas -/

theorem fulltestFrom_word_le (hash target : List Nat) (i : Nat)
    (h : fulltestFrom hash target (i + 1) = true) : hash.getD i 0 ≤ target.getD i 0 := by
  by_contra hgt
  have hgt2 : hash.getD i 0 > target.getD i 0 := Nat.lt_of_not_le hgt
  rw [fulltestFrom, if_pos hgt2] at h
  exact absurd h (by decide)

theorem fulltest_word7_le (hash target : List Nat) (h : fulltest hash target = true) :
    hash.getD 7 0 ≤ target.getD 7 0 :=
  fulltestFrom_word_le hash target 7 h

theorem accepts_eq_fulltest (ptarget hash : List Nat) :
    accepts (ptarget.getD 7 0) ptarget hash = fulltest hash ptarget := by
  unfold accepts
  cases hf : fulltest hash ptarget
  · exact Bool.and_false _
  · rw [decide_eq_true (fulltest_word7_le hash ptarget hf)]
    rfl

theorem be32enc_overwrite (e : Bytes) (off a b : Nat) :
    be32enc (be32enc e off a) off b = be32enc e off b := by
  unfold be32enc
  apply List.ext_getElem
  · simp
  · intro n h1 h2
    simp only [List.getElem_set]
    split_ifs <;> rfl

theorem scanLoop_endian (P : Prims) (restart : Nat → Bool) (pdata ptarget : List Nat)
    (first_nonce Htarg max_nonce fuel i : Nat) (e : Bytes) (a nonce : Nat) (g : Globals)
    (calls : List Nat) :
    scanLoop P restart pdata ptarget first_nonce Htarg max_nonce fuel i (be32enc e 76 a) nonce g
        calls
      = scanLoop P restart pdata ptarget first_nonce Htarg max_nonce fuel i e nonce g calls := by
  cases fuel with
  | zero => rfl
  | succ f => simp only [scanLoop, be32enc_overwrite]

/-- One iteration that ends the scan with a match. -/
theorem scanLoop_hit (P : Prims) (restart : Nat → Bool) (pdata ptarget : List Nat)
    (first_nonce Htarg max_nonce fuel i : Nat) (e : Bytes) (nonce : Nat) (g : Globals)
    (calls : List Nat)
    (h : accepts Htarg ptarget (hashWords (lyra2rev2_hash P g (be32enc e 76 nonce)).1) = true) :
    scanLoop P restart pdata ptarget first_nonce Htarg max_nonce (fuel + 1) i e nonce g calls
      = some { ret := 1, work := { data := pdata.set 19 nonce, target := ptarget },
               hashes_done := ((pdata.set 19 nonce).getD 19 0 + U32 - first_nonce) % U32,
               globals := (lyra2rev2_hash P g (be32enc e 76 nonce)).2,
               calls := calls ++ [nonce] } := by
  simp only [accepts, Bool.and_eq_true, decide_eq_true_eq] at h
  simp only [scanLoop, h, and_self, if_true]

/-- One iteration without a match after which the loop condition fails. -/
theorem scanLoop_exit (P : Prims) (restart : Nat → Bool) (pdata ptarget : List Nat)
    (first_nonce Htarg max_nonce fuel i : Nat) (e : Bytes) (nonce : Nat) (g : Globals)
    (calls : List Nat)
    (h : accepts Htarg ptarget (hashWords (lyra2rev2_hash P g (be32enc e 76 nonce)).1) = false)
    (hc : ¬ ((nonce + 1) % U32 < max_nonce ∧ restart i = false)) :
    scanLoop P restart pdata ptarget first_nonce Htarg max_nonce (fuel + 1) i e nonce g calls
      = some { ret := 0,
               work := { data := pdata.set 19 ((nonce + 1) % U32), target := ptarget },
               hashes_done :=
                 ((pdata.set 19 ((nonce + 1) % U32)).getD 19 0 + U32 - first_nonce + 1) % U32,
               globals := (lyra2rev2_hash P g (be32enc e 76 nonce)).2,
               calls := calls ++ [nonce] } := by
  have h2 : ¬ ((hashWords (lyra2rev2_hash P g (be32enc e 76 nonce)).1).getD 7 0 ≤ Htarg ∧
      fulltest (hashWords (lyra2rev2_hash P g (be32enc e 76 nonce)).1) ptarget = true) := by
    intro hh
    rw [accepts, decide_eq_true hh.1, hh.2] at h
    exact absurd h (by decide)
  simp only [scanLoop, h2, hc, if_false]

/-- One iteration without a match after which the loop goes on. -/
theorem scanLoop_next (P : Prims) (restart : Nat → Bool) (pdata ptarget : List Nat)
    (first_nonce Htarg max_nonce fuel i : Nat) (e : Bytes) (nonce : Nat) (g : Globals)
    (calls : List Nat)
    (h : accepts Htarg ptarget (hashWords (lyra2rev2_hash P g (be32enc e 76 nonce)).1) = false)
    (hc : (nonce + 1) % U32 < max_nonce) (hr : restart i = false) :
    scanLoop P restart pdata ptarget first_nonce Htarg max_nonce (fuel + 1) i e nonce g calls
      = scanLoop P restart pdata ptarget first_nonce Htarg max_nonce fuel (i + 1) e
          ((nonce + 1) % U32) (lyra2rev2_hash P g (be32enc e 76 nonce)).2 (calls ++ [nonce]) := by
  have h2 : ¬ ((hashWords (lyra2rev2_hash P g (be32enc e 76 nonce)).1).getD 7 0 ≤ Htarg ∧
      fulltest (hashWords (lyra2rev2_hash P g (be32enc e 76 nonce)).1) ptarget = true) := by
    intro hh
    rw [accepts, decide_eq_true hh.1, hh.2] at h
    exact absurd h (by decide)
  have hc2 : (nonce + 1) % U32 < max_nonce ∧ restart i = false := ⟨hc, hr⟩
  rw [← scanLoop_endian P restart pdata ptarget first_nonce Htarg max_nonce fuel (i + 1) e nonce]
  simp only [scanLoop, h2, hc2, if_false, if_true, and_self]

/-- Reading `pdata[19]` back after it was written. -/
theorem getD_set_19 (pdata : List Nat) (v : Nat) (hlen : 19 < pdata.length) :
    (pdata.set 19 v).getD 19 0 = v := by
  simp [List.getD_eq_getElem?_getD, List.getElem?_set, hlen]

/-- Attempts `i, ..., i + j - 1` of a scan that neither match nor end the loop. -/
theorem scanLoop_skip (P : Prims) (restart : Nat → Bool) (g : Globals) (work : Work)
    (ptarget : List Nat) (Htarg max_nonce : Nat) (hmax : max_nonce ≤ U32) :
    ∀ (j fuel i : Nat) (calls : List Nat),
      (∀ t, i ≤ t → t < i + j →
        accepts Htarg ptarget (scanDigest P g work t) = false ∧
          work.data.getD 19 0 + t + 1 < max_nonce ∧ restart t = false) →
      scanLoop P restart work.data ptarget (work.data.getD 19 0) Htarg max_nonce (fuel + j) i
          (swab32_array work.data 20) (work.data.getD 19 0 + i) (globalsAt P g work i) calls
        = scanLoop P restart work.data ptarget (work.data.getD 19 0) Htarg max_nonce fuel (i + j)
            (swab32_array work.data 20) (work.data.getD 19 0 + (i + j))
            (globalsAt P g work (i + j)) (calls ++ List.range' (work.data.getD 19 0 + i) j) := by
  intro j
  induction j with
  | zero => intro fuel i calls _; simp
  | succ j ih =>
    intro fuel i calls hall
    obtain ⟨hacc, hlt, hr⟩ := hall i (Nat.le_refl i) (by omega)
    have hmod : (work.data.getD 19 0 + i + 1) % U32 = work.data.getD 19 0 + (i + 1) := by
      rw [Nat.mod_eq_of_lt (by omega)]; omega
    have hstep := scanLoop_next P restart work.data ptarget (work.data.getD 19 0) Htarg max_nonce
      (fuel + j) i (swab32_array work.data 20) (work.data.getD 19 0 + i) (globalsAt P g work i)
      calls hacc (by rw [hmod]; omega) hr
    rw [show fuel + (j + 1) = fuel + j + 1 by omega, hstep, hmod]
    have hih := ih fuel (i + 1) (calls ++ [work.data.getD 19 0 + i])
      (fun t h1 h2 => hall t (by omega) (by omega))
    have hg : (lyra2rev2_hash P (globalsAt P g work i)
        (be32enc (swab32_array work.data 20) 76 (work.data.getD 19 0 + i))).2
          = globalsAt P g work (i + 1) := rfl
    rw [hg, hih, show i + 1 + j = i + (j + 1) by omega, List.append_assoc]
    congr 1

/-- A scan whose attempts `0, ..., k - 1` neither match nor end the loop and whose
attempt `k` matches. -/
theorem scanhash_hit_at (P : Prims) (b : Bool) (restart : Nat → Bool) (g : Globals) (work : Work)
    (max_nonce : Nat) (hmax : max_nonce ≤ U32) (k fuel : Nat)
    (hbefore : ∀ t, t < k →
      accepts (work.target.getD 7 0) (scanTarget b work.target) (scanDigest P g work t) = false ∧
        work.data.getD 19 0 + t + 1 < max_nonce ∧ restart t = false)
    (hk : accepts (work.target.getD 7 0) (scanTarget b work.target) (scanDigest P g work k)
      = true) :
    scanhash_lyra2rev2 P b restart (fuel + k + 1) g work max_nonce
      = some { ret := 1,
               work := { data := work.data.set 19 (work.data.getD 19 0 + k),
                         target := scanTarget b work.target },
               hashes_done := ((work.data.set 19 (work.data.getD 19 0 + k)).getD 19 0 + U32
                 - work.data.getD 19 0) % U32,
               globals := globalsAt P g work (k + 1),
               calls := List.range' (work.data.getD 19 0) (k + 1) } := by
  have hskip := scanLoop_skip P restart g work (scanTarget b work.target) (work.target.getD 7 0)
    max_nonce hmax k (fuel + 1) 0 [] (fun t _ h2 => hbefore t (by omega))
  have hhit := scanLoop_hit P restart work.data (scanTarget b work.target) (work.data.getD 19 0)
    (work.target.getD 7 0) max_nonce fuel k (swab32_array work.data 20) (work.data.getD 19 0 + k)
    (globalsAt P g work k) (List.range' (work.data.getD 19 0) k) hk
  have hunf : scanhash_lyra2rev2 P b restart (fuel + k + 1) g work max_nonce
      = scanLoop P restart work.data (scanTarget b work.target) (work.data.getD 19 0)
          (work.target.getD 7 0) max_nonce (fuel + 1 + k) 0 (swab32_array work.data 20)
          (work.data.getD 19 0 + 0) (globalsAt P g work 0) [] := by
    rw [show fuel + 1 + k = fuel + k + 1 by omega]; rfl
  rw [hunf, hskip]
  simp only [Nat.zero_add, Nat.add_zero, List.nil_append] at hhit ⊢
  rw [hhit, List.range'_concat, Nat.one_mul]
  rfl

/-- A scan whose attempts `0, ..., k - 1` neither match nor end the loop and whose
attempt `k` does not match and ends the loop. -/
theorem scanhash_exit_at (P : Prims) (b : Bool) (restart : Nat → Bool) (g : Globals) (work : Work)
    (max_nonce : Nat) (hmax : max_nonce ≤ U32) (k fuel : Nat)
    (hbefore : ∀ t, t < k →
      accepts (work.target.getD 7 0) (scanTarget b work.target) (scanDigest P g work t) = false ∧
        work.data.getD 19 0 + t + 1 < max_nonce ∧ restart t = false)
    (hk : accepts (work.target.getD 7 0) (scanTarget b work.target) (scanDigest P g work k)
      = false)
    (hc : ¬ ((work.data.getD 19 0 + k + 1) % U32 < max_nonce ∧ restart k = false)) :
    scanhash_lyra2rev2 P b restart (fuel + k + 1) g work max_nonce
      = some { ret := 0,
               work := { data := work.data.set 19 ((work.data.getD 19 0 + k + 1) % U32),
                         target := scanTarget b work.target },
               hashes_done := ((work.data.set 19 ((work.data.getD 19 0 + k + 1) % U32)).getD 19 0
                 + U32 - work.data.getD 19 0 + 1) % U32,
               globals := globalsAt P g work (k + 1),
               calls := List.range' (work.data.getD 19 0) (k + 1) } := by
  have hskip := scanLoop_skip P restart g work (scanTarget b work.target) (work.target.getD 7 0)
    max_nonce hmax k (fuel + 1) 0 [] (fun t _ h2 => hbefore t (by omega))
  have hex := scanLoop_exit P restart work.data (scanTarget b work.target) (work.data.getD 19 0)
    (work.target.getD 7 0) max_nonce fuel k (swab32_array work.data 20) (work.data.getD 19 0 + k)
    (globalsAt P g work k) (List.range' (work.data.getD 19 0) k) hk hc
  have hunf : scanhash_lyra2rev2 P b restart (fuel + k + 1) g work max_nonce
      = scanLoop P restart work.data (scanTarget b work.target) (work.data.getD 19 0)
          (work.target.getD 7 0) max_nonce (fuel + 1 + k) 0 (swab32_array work.data 20)
          (work.data.getD 19 0 + 0) (globalsAt P g work 0) [] := by
    rw [show fuel + 1 + k = fuel + k + 1 by omega]; rfl
  rw [hunf, hskip]
  simp only [Nat.zero_add, Nat.add_zero, List.nil_append] at hex ⊢
  rw [hex, List.range'_concat, Nat.one_mul]
  rfl

theorem wordsValue_lt (ws : List Nat) (hws : ∀ j, ws.getD j 0 < U32) :
    ∀ i, wordsValue ws i < U32 ^ i := by
  intro i
  induction i with
  | zero => simp [wordsValue]
  | succ i ih =>
    have h1 : (ws.getD i 0 + 1) * U32 ^ i ≤ U32 * U32 ^ i :=
      Nat.mul_le_mul_right _ (hws i)
    rw [Nat.add_mul, Nat.one_mul] at h1
    rw [wordsValue, pow_succ, Nat.mul_comm (U32 ^ i) U32]
    omega

/-- The modelled `fulltest` is the comparison of digest and target as numbers. -/
theorem fulltestFrom_iff_value (hash target : List Nat) (hh : ∀ j, hash.getD j 0 < U32)
    (ht : ∀ j, target.getD j 0 < U32) :
    ∀ i, fulltestFrom hash target i = true ↔ wordsValue hash i ≤ wordsValue target i := by
  intro i
  induction i with
  | zero => simp [fulltestFrom, wordsValue]
  | succ i ih =>
    have hvh := wordsValue_lt hash hh i
    have hvt := wordsValue_lt target ht i
    rw [fulltestFrom, wordsValue, wordsValue]
    by_cases hgt : hash.getD i 0 > target.getD i 0
    · rw [if_pos hgt]
      have h1 : (target.getD i 0 + 1) * U32 ^ i ≤ hash.getD i 0 * U32 ^ i :=
        Nat.mul_le_mul_right _ hgt
      rw [Nat.add_mul, Nat.one_mul] at h1
      constructor
      · intro h; exact absurd h (by decide)
      · intro h; omega
    · rw [if_neg hgt]
      by_cases hlt : hash.getD i 0 < target.getD i 0
      · rw [if_pos hlt]
        have h1 : (hash.getD i 0 + 1) * U32 ^ i ≤ target.getD i 0 * U32 ^ i :=
          Nat.mul_le_mul_right _ hlt
        rw [Nat.add_mul, Nat.one_mul] at h1
        constructor
        · intro _; omega
        · intro _; rfl
      · rw [if_neg hlt]
        have heq : hash.getD i 0 = target.getD i 0 := by omega
        rw [ih, heq]
        omega

/-- A digest word is a `uint32_t`. -/
theorem le32dec_lt (buf : Bytes) (i : Nat) : le32dec buf i < U32 := by
  unfold le32dec byteAt U32
  omega

theorem hashWords_getD_le (buf : Bytes) (i : Nat) : (hashWords buf).getD i 0 ≤ 4294967295 := by
  unfold hashWords
  rw [List.getD_eq_getElem?_getD, List.getElem?_map]
  cases h : (List.range 8)[i]? with
  | none => simp
  | some j =>
    have := le32dec_lt buf j
    simp only [Option.map_some', Option.getD_some]
    unfold U32 at this
    omega

/-- A digest whose words do not exceed the target's, word by word, passes. -/
theorem fulltestFrom_of_words_le (hash target : List Nat) :
    ∀ i, (∀ j, j < i → hash.getD j 0 ≤ target.getD j 0) → fulltestFrom hash target i = true := by
  intro i
  induction i with
  | zero => intro _; rfl
  | succ i ih =>
    intro h
    have hi := h i (Nat.lt_succ_self i)
    rw [fulltestFrom, if_neg (Nat.not_lt.mpr hi)]
    by_cases hlt : hash.getD i 0 < target.getD i 0
    · rw [if_pos hlt]
    · rw [if_neg hlt]
      exact ih (fun j hj => h j (Nat.lt_succ_of_lt hj))

theorem fulltest_allOnes (buf : Bytes) : fulltest (hashWords buf) allOnes = true := by
  apply fulltestFrom_of_words_le
  intro j hj
  have h1 := hashWords_getD_le buf j
  have h2 : allOnes.getD j 0 = 4294967295 := by
    unfold allOnes
    interval_cases j <;> rfl
  omega

/-- The loop leaves the template set and the midstate as they were. -/
theorem scanLoop_frame (P : Prims) (restart : Nat → Bool) (pdata ptarget : List Nat)
    (first_nonce Htarg max_nonce : Nat) :
    ∀ (fuel i : Nat) (e : Bytes) (nonce : Nat) (g : Globals) (calls : List Nat) (r : ScanResult),
      scanLoop P restart pdata ptarget first_nonce Htarg max_nonce fuel i e nonce g calls = some r →
      r.globals.lyra2v2_ctx = g.lyra2v2_ctx ∧ r.globals.l2v2_blake_mid = g.l2v2_blake_mid := by
  intro fuel
  induction fuel with
  | zero => intro i e nonce g calls r h; simp [scanLoop] at h
  | succ f ih =>
    intro i e nonce g calls r h
    cases hacc : accepts Htarg ptarget (hashWords (lyra2rev2_hash P g (be32enc e 76 nonce)).1)
    · by_cases hc : (nonce + 1) % U32 < max_nonce ∧ restart i = false
      · rw [scanLoop_next P restart pdata ptarget first_nonce Htarg max_nonce f i e nonce g calls
          hacc hc.1 hc.2] at h
        exact ih _ _ _ (lyra2rev2_hash P g (be32enc e 76 nonce)).2 _ _ h
      · rw [scanLoop_exit P restart pdata ptarget first_nonce Htarg max_nonce f i e nonce g calls
          hacc hc] at h
        cases h
        exact ⟨rfl, rfl⟩
    · rw [scanLoop_hit P restart pdata ptarget first_nonce Htarg max_nonce f i e nonce g calls
        hacc] at h
      cases h
      exact ⟨rfl, rfl⟩

/-- The loop returns once the fuel covers the nonces left below `max_nonce` (one
more when it is entered at or above `max_nonce`). -/
theorem scanLoop_returns (P : Prims) (restart : Nat → Bool) (pdata ptarget : List Nat)
    (first_nonce Htarg max_nonce : Nat) (hmax : max_nonce < U32) :
    ∀ (fuel i : Nat) (e : Bytes) (nonce : Nat) (g : Globals) (calls : List Nat),
      (if nonce < max_nonce then max_nonce - nonce else max_nonce + 1) ≤ fuel →
      ∃ r, scanLoop P restart pdata ptarget first_nonce Htarg max_nonce fuel i e nonce g calls
        = some r := by
  intro fuel
  induction fuel with
  | zero =>
    intro i e nonce g calls h
    exfalso
    split_ifs at h <;> omega
  | succ f ih =>
    intro i e nonce g calls h
    cases hacc : accepts Htarg ptarget (hashWords (lyra2rev2_hash P g (be32enc e 76 nonce)).1)
    · by_cases hc : (nonce + 1) % U32 < max_nonce ∧ restart i = false
      · rw [scanLoop_next P restart pdata ptarget first_nonce Htarg max_nonce f i e nonce g calls
          hacc hc.1 hc.2]
        apply ih
        rw [if_pos hc.1]
        split_ifs at h with hlt
        · rw [Nat.mod_eq_of_lt (by omega)]
          omega
        · omega
      · exact ⟨_, scanLoop_exit P restart pdata ptarget first_nonce Htarg max_nonce f i e nonce g
          calls hacc hc⟩
    · exact ⟨_, scanLoop_hit P restart pdata ptarget first_nonce Htarg max_nonce f i e nonce g
        calls hacc⟩

/-! ## Midstate equivalence -/

/-- C1 (midstate equivalence).  Assume Blake-256 absorption is incremental on a
64-byte block followed by a 16-byte block.  For 80-byte headers `h` and `h'`
with the same first 64 bytes, `lyra2rev2_hash` run on `h'` after
`l2v2_blake256_midstate h` returns the digest of the pipeline whose first stage
absorbs all 80 bytes of `h'` into a fresh copy of the Blake-256 template. -/
theorem midstate_equivalence (P : Prims) (g : Globals) (h h' : Bytes)
    (hinc : ∀ c a b : Bytes, a.length = 64 → b.length = 16 →
      P.sph_blake256 (P.sph_blake256 c a) b = P.sph_blake256 c (a ++ b))
    (hlen' : h'.length = 80) (hpre : h.take 64 = h'.take 64) :
    (lyra2rev2_hash P (l2v2_blake256_midstate P g h) h').1 = (pipeline_from_scratch P g h').1 := by
  have h1 : readBytes h 0 64 = h'.take 64 := by simp [readBytes, hpre]
  have h2 : readBytes h' 64 16 = h'.drop 64 := by
    simp only [readBytes]
    apply List.take_of_length_le
    simp [hlen']
  have h3 : readBytes h' 0 80 = h'.take 64 ++ h'.drop 64 := by
    simp only [readBytes, List.drop_zero, List.take_append_drop]
    apply List.take_of_length_le
    simp [hlen']
  have h4 : P.sph_blake256 (P.sph_blake256 g.lyra2v2_ctx.blake (readBytes h 0 64))
      (readBytes h' 64 16) = P.sph_blake256 g.lyra2v2_ctx.blake (readBytes h' 0 80) := by
    rw [h1, h2, h3]
    exact hinc _ _ _ (by simp [hlen']) (by simp [hlen'])
  simp only [lyra2rev2_hash, pipeline_from_scratch, l2v2_blake256_midstate, h4]

/-- C1 at a concrete input: two headers that differ only in the nonce, on the
stand-in primitives. -/
theorem midstate_equivalence_witness :
    (lyra2rev2_hash toyPrims
        (l2v2_blake256_midstate toyPrims toyGlobals (headerFor (workAt 3 []).data 3))
        (headerFor (workAt 3 []).data 70000)).1
      = (pipeline_from_scratch toyPrims toyGlobals (headerFor (workAt 3 []).data 70000)).1 :=
  midstate_equivalence toyPrims toyGlobals (headerFor (workAt 3 []).data 3)
    (headerFor (workAt 3 []).data 70000) (fun c a b _ _ => (List.append_assoc c a b))
    (by decide) (by decide)

/-! ## The scan as a linear search -/

/-- C2 (linear search).  With the benchmark flag clear, the restart flag never
set and `first_nonce = pdata[19] < max_nonce`, the scan returns 1 exactly when
some attempt `k < max_nonce - first_nonce` (nonce `first_nonce + k`) yields a
digest that passes `fulltest`; then `pdata[19]` is the least such nonce.
Otherwise it returns 0 with `pdata[19] = max_nonce`, and `lyra2rev2_hash` was
invoked once on each of `first_nonce, ..., max_nonce - 1`, in that order. -/
theorem scanhash_linear_search (P : Prims) (g : Globals) (work : Work) (max_nonce : Nat)
    (restart : Nat → Bool) (fuel : Nat)
    (hr : ∀ i, restart i = false) (hlen : 19 < work.data.length)
    (hlt : work.data.getD 19 0 < max_nonce) (hmax : max_nonce < U32)
    (hfuel : max_nonce - work.data.getD 19 0 ≤ fuel) :
    ∃ r, scanhash_lyra2rev2 P false restart fuel g work max_nonce = some r ∧
      (r.ret = 1 ↔ ∃ k, k < max_nonce - work.data.getD 19 0 ∧
        fulltest (scanDigest P g work k) work.target = true) ∧
      (r.ret = 1 → ∃ k, k < max_nonce - work.data.getD 19 0 ∧
        fulltest (scanDigest P g work k) work.target = true ∧
        (∀ t, t < k → fulltest (scanDigest P g work t) work.target = false) ∧
        r.work.data.getD 19 0 = work.data.getD 19 0 + k ∧
        r.calls = List.range' (work.data.getD 19 0) (k + 1)) ∧
      (r.ret ≠ 1 → r.ret = 0 ∧ r.work.data.getD 19 0 = max_nonce ∧
        r.calls = List.range' (work.data.getD 19 0) (max_nonce - work.data.getD 19 0)) := by
  have hacc : ∀ t, accepts (work.target.getD 7 0) (scanTarget false work.target)
      (scanDigest P g work t) = fulltest (scanDigest P g work t) work.target :=
    fun t => accepts_eq_fulltest work.target (scanDigest P g work t)
  by_cases hex : ∃ k, k < max_nonce - work.data.getD 19 0 ∧
      fulltest (scanDigest P g work k) work.target = true
  · have hk0 := Nat.find_spec hex
    have hmin : ∀ t, t < Nat.find hex → fulltest (scanDigest P g work t) work.target = false := by
      intro t ht
      have hn := Nat.find_min hex ht
      have ht2 : t < max_nonce - work.data.getD 19 0 := by omega
      cases hf : fulltest (scanDigest P g work t) work.target
      · rfl
      · exact absurd ⟨ht2, hf⟩ hn
    obtain ⟨f, hf⟩ : ∃ f, fuel = f + Nat.find hex + 1 := ⟨fuel - Nat.find hex - 1, by omega⟩
    have hrun := scanhash_hit_at P false restart g work max_nonce (Nat.le_of_lt hmax)
      (Nat.find hex) f
      (fun t ht => ⟨by rw [hacc, hmin t ht], by omega, hr t⟩) (by rw [hacc, hk0.2])
    rw [← hf] at hrun
    refine ⟨_, hrun, ⟨fun _ => hex, fun _ => rfl⟩, fun _ => ⟨Nat.find hex, hk0.1, hk0.2, hmin, ?_, rfl⟩,
      fun hne => absurd rfl hne⟩
    exact getD_set_19 _ _ hlen
  · have hnone : ∀ t, t < max_nonce - work.data.getD 19 0 →
        fulltest (scanDigest P g work t) work.target = false := by
      intro t ht
      cases hf : fulltest (scanDigest P g work t) work.target
      · rfl
      · exact absurd ⟨t, ht, hf⟩ hex
    obtain ⟨d, hd⟩ : ∃ d, max_nonce = work.data.getD 19 0 + d + 1 :=
      ⟨max_nonce - work.data.getD 19 0 - 1, by omega⟩
    obtain ⟨f, hf⟩ : ∃ f, fuel = f + d + 1 := ⟨fuel - d - 1, by omega⟩
    have hmod : (work.data.getD 19 0 + d + 1) % U32 = max_nonce := by
      rw [Nat.mod_eq_of_lt (by omega)]; omega
    have hrun := scanhash_exit_at P false restart g work max_nonce (Nat.le_of_lt hmax) d f
      (fun t ht => ⟨by rw [hacc, hnone t (by omega)], by omega, hr t⟩)
      (by rw [hacc, hnone d (by omega)]) (by rw [hmod]; omega)
    rw [← hf, hmod] at hrun
    refine ⟨_, hrun, ⟨fun h1 => absurd h1 Nat.zero_ne_one, fun h => absurd h hex⟩,
      fun h1 => absurd h1 Nat.zero_ne_one, fun _ => ⟨rfl, getD_set_19 _ _ hlen, ?_⟩⟩
    show List.range' (work.data.getD 19 0) (d + 1) = _
    congr 1
    omega

/-- C2 at a concrete input: nonces 5 and 6 fail, nonce 7 is the first whose digest
meets the target, on the stand-in primitives. -/
theorem scanhash_linear_search_witness :
    ∃ r, scanhash_lyra2rev2 toyPrims false (fun _ => false) 20 toyGlobals
        (workAt 5 easyUpTo7) 12 = some r ∧
      (r.ret = 1 ↔ ∃ k, k < 12 - 5 ∧
        fulltest (scanDigest toyPrims toyGlobals (workAt 5 easyUpTo7) k)
          easyUpTo7 = true) ∧
      (r.ret = 1 → ∃ k, k < 12 - 5 ∧
        fulltest (scanDigest toyPrims toyGlobals (workAt 5 easyUpTo7) k)
          easyUpTo7 = true ∧
        (∀ t, t < k → fulltest
          (scanDigest toyPrims toyGlobals (workAt 5 easyUpTo7) t)
          easyUpTo7 = false) ∧
        r.work.data.getD 19 0 = 5 + k ∧ r.calls = List.range' 5 (k + 1)) ∧
      (r.ret ≠ 1 → r.ret = 0 ∧ r.work.data.getD 19 0 = 12 ∧ r.calls = List.range' 5 (12 - 5)) :=
  scanhash_linear_search toyPrims toyGlobals (workAt 5 easyUpTo7) 12
    (fun _ => false) 20 (fun _ => rfl) (by decide) (by decide) (by decide) (by decide)

/-! ## The single-word pre-check -/

/-- C3 (early-exit soundness).  A digest that `fulltest` accepts against a target
has word 7 at most the target's word 7, so with the benchmark flag clear
(`Htarg` is word 7 of the target compared against) the loop's test accepts it. -/
theorem early_exit_sound (hash target : List Nat) (h : fulltest hash target = true) :
    hash.getD 7 0 ≤ target.getD 7 0 ∧
      accepts (target.getD 7 0) (scanTarget false target) hash = true := by
  refine ⟨fulltest_word7_le hash target h, ?_⟩
  show accepts (target.getD 7 0) target hash = true
  rw [accepts_eq_fulltest, h]

/-- C3 at a concrete digest and target. -/
theorem early_exit_sound_witness :
    [9, 8, 7, 6, 5, 4, 3, 2].getD 7 0 ≤ [0, 0, 0, 0, 0, 0, 0, 3].getD 7 0 ∧
      accepts ([0, 0, 0, 0, 0, 0, 0, 3].getD 7 0) (scanTarget false [0, 0, 0, 0, 0, 0, 0, 3])
        [9, 8, 7, 6, 5, 4, 3, 2] = true :=
  early_exit_sound [9, 8, 7, 6, 5, 4, 3, 2] [0, 0, 0, 0, 0, 0, 0, 3] (by decide)

/-! ## The reported attempt count -/

/-- C4 (exhaustion boundary), what the code does.  When none of the `k ≥ 1`
nonces `first_nonce, ..., first_nonce + k - 1` passes the loop's test, the
restart flag is never set and `max_nonce = first_nonce + k ≤ 2^32 - 1`, the
scan returns 0 after invoking `lyra2rev2_hash` on exactly those `k` nonces, and
stores `(k + 1) mod 2^32` in `*hashes_done`, which is never `k`. -/
theorem scanhash_exhaustion_count (P : Prims) (b : Bool) (g : Globals) (work : Work) (k : Nat)
    (restart : Nat → Bool) (fuel : Nat)
    (hr : ∀ i, restart i = false) (hlen : 19 < work.data.length) (hk : 1 ≤ k)
    (hbound : work.data.getD 19 0 + k ≤ U32 - 1)
    (hnone : ∀ t, t < k →
      accepts (work.target.getD 7 0) (scanTarget b work.target) (scanDigest P g work t) = false)
    (hfuel : k ≤ fuel) :
    ∃ r, scanhash_lyra2rev2 P b restart fuel g work (work.data.getD 19 0 + k) = some r ∧
      r.ret = 0 ∧ r.calls = List.range' (work.data.getD 19 0) k ∧ r.calls.length = k ∧
      r.hashes_done = (k + 1) % U32 ∧ r.hashes_done ≠ k := by
  obtain ⟨d, rfl⟩ : ∃ d, k = d + 1 := ⟨k - 1, by omega⟩
  obtain ⟨f, rfl⟩ : ∃ f, fuel = f + d + 1 := ⟨fuel - d - 1, by omega⟩
  have hU : U32 = 4294967296 := rfl
  have hmod : (work.data.getD 19 0 + d + 1) % U32 = work.data.getD 19 0 + (d + 1) := by
    rw [Nat.mod_eq_of_lt (by omega)]; omega
  have hrun := scanhash_exit_at P b restart g work (work.data.getD 19 0 + (d + 1)) (by omega) d f
    (fun t ht => ⟨hnone t (by omega), by omega, hr t⟩) (hnone d (by omega))
    (by rw [hmod]; omega)
  rw [hmod, getD_set_19 _ _ hlen] at hrun
  have hcount : (work.data.getD 19 0 + (d + 1) + U32 - work.data.getD 19 0 + 1) % U32
      = (d + 1 + 1) % U32 := by
    rw [show work.data.getD 19 0 + (d + 1) + U32 - work.data.getD 19 0 + 1
      = d + 1 + 1 + U32 by omega, Nat.add_mod_right]
  refine ⟨_, hrun, rfl, rfl, by simp, hcount, ?_⟩
  show (work.data.getD 19 0 + (d + 1) + U32 - work.data.getD 19 0 + 1) % U32 ≠ d + 1
  rw [hcount, hU]
  rw [hU] at hbound
  omega

/-- C4 at a concrete input: one nonce below `max_nonce`, an all-zero target; one
attempt is made and `*hashes_done` is 2. -/
theorem scanhash_exhaustion_count_witness :
    ∃ r, scanhash_lyra2rev2 toyPrims false (fun _ => false) 1 toyGlobals
        (workAt 0 (List.replicate 8 0)) ((workAt 0 (List.replicate 8 0)).data.getD 19 0 + 1)
          = some r ∧
      r.ret = 0 ∧ r.calls = List.range' ((workAt 0 (List.replicate 8 0)).data.getD 19 0) 1 ∧
      r.calls.length = 1 ∧ r.hashes_done = (1 + 1) % U32 ∧ r.hashes_done ≠ 1 :=
  scanhash_exhaustion_count toyPrims false toyGlobals (workAt 0 (List.replicate 8 0)) 1
    (fun _ => false) 1 (fun _ => rfl) (by decide) (by decide) (by decide) (by decide) (by decide)

/-- C5 (attempt count on success), what the code does.  For every instance of the
primitives, on the all-zero header template (any starting nonce) with the
all-ones target and the benchmark flag clear, the scan returns 1 on the first
nonce attempted, with `pdata[19] = first_nonce` and one pipeline invocation,
and stores 0 in `*hashes_done`. -/
theorem scanhash_first_nonce_count (P : Prims) (g : Globals) (first_nonce max_nonce : Nat)
    (restart : Nat → Bool) (fuel : Nat) :
    ∃ r, scanhash_lyra2rev2 P false restart (fuel + 1) g (workAt first_nonce allOnes) max_nonce
        = some r ∧
      r.ret = 1 ∧ r.work.data.getD 19 0 = first_nonce ∧ r.calls = [first_nonce] ∧
      r.hashes_done = 0 := by
  have hfirst : (workAt first_nonce allOnes).data.getD 19 0 = first_nonce := rfl
  have hacc : accepts (allOnes.getD 7 0) allOnes
      (hashWords (lyra2rev2_hash P
        (l2v2_blake256_midstate P g (swab32_array (workAt first_nonce allOnes).data 20))
        (be32enc (swab32_array (workAt first_nonce allOnes).data 20) 76 first_nonce)).1)
        = true := by
    rw [accepts_eq_fulltest]
    exact fulltest_allOnes _
  have hrun := scanLoop_hit P restart (workAt first_nonce allOnes).data allOnes first_nonce
    (allOnes.getD 7 0) max_nonce fuel 0 (swab32_array (workAt first_nonce allOnes).data 20)
    first_nonce (l2v2_blake256_midstate P g (swab32_array (workAt first_nonce allOnes).data 20))
    [] hacc
  have hget : ((workAt first_nonce allOnes).data.set 19 first_nonce).getD 19 0 = first_nonce :=
    getD_set_19 _ _ (by simp [workAt])
  refine ⟨_, hrun, rfl, hget, rfl, ?_⟩
  show (((workAt first_nonce allOnes).data.set 19 first_nonce).getD 19 0 + U32 - first_nonce)
    % U32 = 0
  rw [hget, Nat.add_sub_cancel_left, Nat.mod_self]

/-- The count stored on success, in general: when attempt `k` is the first to pass
the loop's test, `k + 1` nonces were hashed and `*hashes_done` is `k`. -/
theorem scanhash_success_count (P : Prims) (b : Bool) (restart : Nat → Bool) (g : Globals)
    (work : Work) (max_nonce : Nat) (hmax : max_nonce ≤ U32) (hlen : 19 < work.data.length)
    (k fuel : Nat)
    (hbefore : ∀ t, t < k →
      accepts (work.target.getD 7 0) (scanTarget b work.target) (scanDigest P g work t) = false ∧
        work.data.getD 19 0 + t + 1 < max_nonce ∧ restart t = false)
    (hk : accepts (work.target.getD 7 0) (scanTarget b work.target) (scanDigest P g work k)
      = true) :
    ∃ r, scanhash_lyra2rev2 P b restart (fuel + k + 1) g work max_nonce = some r ∧
      r.ret = 1 ∧ r.work.data.getD 19 0 = work.data.getD 19 0 + k ∧ r.calls.length = k + 1 ∧
      r.hashes_done = k % U32 := by
  have hrun := scanhash_hit_at P b restart g work max_nonce hmax k fuel hbefore hk
  rw [getD_set_19 _ _ hlen] at hrun
  refine ⟨_, hrun, rfl, getD_set_19 _ _ hlen, by simp, ?_⟩
  show (work.data.getD 19 0 + k + U32 - work.data.getD 19 0) % U32 = k % U32
  rw [show work.data.getD 19 0 + k + U32 - work.data.getD 19 0 = k + U32 by omega,
    Nat.add_mod_right]

/-! ## A range with no nonce in it -/

/-- C6, the claim as stated fails: with `max_nonce == first_nonce == 5` and a target
the digest does not meet, the scan hashes nonce 5 and stores 2 in `*hashes_done`
(stand-in primitives). -/
theorem scanhash_empty_range_counterexample :
    (scanhash_lyra2rev2 toyPrims false (fun _ => false) 1 toyGlobals
        (workAt 5 (List.replicate 8 0)) 5).map (fun r => (r.ret, r.hashes_done, r.calls))
      = some (0, 2, [5]) := by
  decide

/-- C6 as amended.  When `max_nonce == first_nonce = pdata[19] < 2^32 - 1`, the
scan invokes `lyra2rev2_hash` exactly once, on `first_nonce`; it returns 1 with
`pdata[19] = first_nonce` if that digest passes the loop's test, and otherwise
returns 0 with `pdata[19] = first_nonce + 1`. -/
theorem scanhash_empty_range (P : Prims) (b : Bool) (restart : Nat → Bool) (g : Globals)
    (work : Work) (fuel : Nat) (hfirst : work.data.getD 19 0 + 1 < U32) :
    ∃ r, scanhash_lyra2rev2 P b restart (fuel + 1) g work (work.data.getD 19 0) = some r ∧
      r.calls = [work.data.getD 19 0] ∧
      (accepts (work.target.getD 7 0) (scanTarget b work.target) (scanDigest P g work 0) = true →
        r.ret = 1 ∧ r.work.data = work.data.set 19 (work.data.getD 19 0)) ∧
      (accepts (work.target.getD 7 0) (scanTarget b work.target) (scanDigest P g work 0) = false →
        r.ret = 0 ∧ r.work.data = work.data.set 19 (work.data.getD 19 0 + 1)) := by
  have hmod : (work.data.getD 19 0 + 0 + 1) % U32 = work.data.getD 19 0 + 1 :=
    Nat.mod_eq_of_lt hfirst
  cases hacc : accepts (work.target.getD 7 0) (scanTarget b work.target) (scanDigest P g work 0)
  · have hrun := scanhash_exit_at P b restart g work (work.data.getD 19 0)
      (Nat.le_of_lt (by omega)) 0 fuel (fun t ht => absurd ht (Nat.not_lt_zero t)) hacc
      (by rw [hmod]; omega)
    rw [hmod] at hrun
    exact ⟨_, hrun, rfl, fun h => absurd h (by decide), fun _ => ⟨rfl, rfl⟩⟩
  · have hrun := scanhash_hit_at P b restart g work (work.data.getD 19 0)
      (Nat.le_of_lt (by omega)) 0 fuel (fun t ht => absurd ht (Nat.not_lt_zero t)) hacc
    exact ⟨_, hrun, rfl, fun _ => ⟨rfl, rfl⟩, fun h => absurd h (by decide)⟩

/-- C6 as amended, at the input of the counterexample. -/
theorem scanhash_empty_range_witness :
    ∃ r, scanhash_lyra2rev2 toyPrims false (fun _ => false) (0 + 1) toyGlobals
        (workAt 5 (List.replicate 8 0)) ((workAt 5 (List.replicate 8 0)).data.getD 19 0)
          = some r ∧
      r.calls = [(workAt 5 (List.replicate 8 0)).data.getD 19 0] ∧
      (accepts ((workAt 5 (List.replicate 8 0)).target.getD 7 0)
          (scanTarget false (workAt 5 (List.replicate 8 0)).target)
          (scanDigest toyPrims toyGlobals (workAt 5 (List.replicate 8 0)) 0) = true →
        r.ret = 1 ∧ r.work.data = (workAt 5 (List.replicate 8 0)).data.set 19
          ((workAt 5 (List.replicate 8 0)).data.getD 19 0)) ∧
      (accepts ((workAt 5 (List.replicate 8 0)).target.getD 7 0)
          (scanTarget false (workAt 5 (List.replicate 8 0)).target)
          (scanDigest toyPrims toyGlobals (workAt 5 (List.replicate 8 0)) 0) = false →
        r.ret = 0 ∧ r.work.data = (workAt 5 (List.replicate 8 0)).data.set 19
          ((workAt 5 (List.replicate 8 0)).data.getD 19 0 + 1)) :=
  scanhash_empty_range toyPrims false (fun _ => false) toyGlobals
    (workAt 5 (List.replicate 8 0)) 0 (by decide)

/-! ## The restart flag -/

/-- C7 (restart responsiveness).  `restart k` is the flag as read at the end of
iteration `k`.  If iterations `0, ..., k - 1` went on (no match, nonce still
below `max_nonce`, flag clear), iteration `k` did not match and the flag then
reads set, the scan returns 0 having hashed the nonces up to `first_nonce + k`
and no further one, whatever `max_nonce` is.  If the flag reads set from the
start, exactly one nonce is hashed. -/
theorem restart_responsive (P : Prims) (b : Bool) (restart : Nat → Bool) (g : Globals)
    (work : Work) (max_nonce fuel : Nat) (hmax : max_nonce ≤ U32) :
    (∀ k, (∀ t, t < k →
        accepts (work.target.getD 7 0) (scanTarget b work.target) (scanDigest P g work t) = false ∧
          work.data.getD 19 0 + t + 1 < max_nonce ∧ restart t = false) →
      accepts (work.target.getD 7 0) (scanTarget b work.target) (scanDigest P g work k) = false →
      restart k = true →
      ∃ r, scanhash_lyra2rev2 P b restart (fuel + k + 1) g work max_nonce = some r ∧
        r.ret = 0 ∧ r.calls = List.range' (work.data.getD 19 0) (k + 1)) ∧
    (restart 0 = true →
      ∃ r, scanhash_lyra2rev2 P b restart (fuel + 1) g work max_nonce = some r ∧
        r.calls = [work.data.getD 19 0]) := by
  constructor
  · intro k hbefore hk hrk
    exact ⟨_, scanhash_exit_at P b restart g work max_nonce hmax k fuel hbefore hk
      (by rw [hrk]; simp), rfl, rfl⟩
  · intro hr0
    cases hacc : accepts (work.target.getD 7 0) (scanTarget b work.target) (scanDigest P g work 0)
    · exact ⟨_, scanhash_exit_at P b restart g work max_nonce hmax 0 fuel
        (fun t ht => absurd ht (Nat.not_lt_zero t)) hacc (by rw [hr0]; simp), rfl⟩
    · exact ⟨_, scanhash_hit_at P b restart g work max_nonce hmax 0 fuel
        (fun t ht => absurd ht (Nat.not_lt_zero t)) hacc, rfl⟩

/-- C7 at a concrete input: the flag is read set at the end of the second
iteration, with the whole nonce space still ahead; nonces 5 and 6 are hashed. -/
theorem restart_responsive_witness :
    ∃ r, scanhash_lyra2rev2 toyPrims false (fun i => decide (1 ≤ i)) (0 + 1 + 1) toyGlobals
        (workAt 5 (List.replicate 8 0)) 4294967295 = some r ∧
      r.ret = 0 ∧ r.calls = List.range' ((workAt 5 (List.replicate 8 0)).data.getD 19 0) (1 + 1) :=
  (restart_responsive toyPrims false (fun i => decide (1 ≤ i)) toyGlobals
    (workAt 5 (List.replicate 8 0)) 4294967295 0 (by decide)).1 1 (by decide) (by decide)
    (by decide)

/-! ## Templates, midstate and scratch -/

/-- C8 (template immutability).  `lyra2rev2_hash`, `l2v2_blake256_midstate` and
`scanhash_lyra2rev2` leave the template set `lyra2v2_ctx` unchanged, and
`lyra2rev2_hash` leaves the midstate `l2v2_blake_mid` unchanged; the scan does
return for every `max_nonce` that is a `uint32_t`. -/
theorem template_immutability (P : Prims) (g : Globals) (input : Bytes) :
    (lyra2rev2_hash P g input).2.lyra2v2_ctx = g.lyra2v2_ctx ∧
    (lyra2rev2_hash P g input).2.l2v2_blake_mid = g.l2v2_blake_mid ∧
    (l2v2_blake256_midstate P g input).lyra2v2_ctx = g.lyra2v2_ctx ∧
    (∀ (b : Bool) (restart : Nat → Bool) (fuel : Nat) (work : Work) (max_nonce : Nat)
        (r : ScanResult),
      scanhash_lyra2rev2 P b restart fuel g work max_nonce = some r →
        r.globals.lyra2v2_ctx = g.lyra2v2_ctx) ∧
    (∀ (b : Bool) (restart : Nat → Bool) (fuel : Nat) (work : Work) (max_nonce : Nat),
      max_nonce < U32 →
        ∃ r, scanhash_lyra2rev2 P b restart (fuel + max_nonce + 1) g work max_nonce = some r ∧
          r.globals.lyra2v2_ctx = g.lyra2v2_ctx) := by
  have hframe : ∀ (b : Bool) (restart : Nat → Bool) (fuel : Nat) (work : Work) (max_nonce : Nat)
      (r : ScanResult), scanhash_lyra2rev2 P b restart fuel g work max_nonce = some r →
        r.globals.lyra2v2_ctx = g.lyra2v2_ctx := by
    intro b restart fuel work max_nonce r h
    exact (scanLoop_frame P restart work.data (scanTarget b work.target) (work.data.getD 19 0)
      (work.target.getD 7 0) max_nonce fuel 0 (swab32_array work.data 20) (work.data.getD 19 0)
      (l2v2_blake256_midstate P g (swab32_array work.data 20)) [] r h).1
  refine ⟨rfl, rfl, rfl, hframe, ?_⟩
  intro b restart fuel work max_nonce hmax
  obtain ⟨r, hr⟩ := scanLoop_returns P restart work.data (scanTarget b work.target)
    (work.data.getD 19 0) (work.target.getD 7 0) max_nonce hmax (fuel + max_nonce + 1) 0
    (swab32_array work.data 20) (work.data.getD 19 0)
    (l2v2_blake256_midstate P g (swab32_array work.data 20)) [] (by split_ifs <;> omega)
  have hr2 : scanhash_lyra2rev2 P b restart (fuel + max_nonce + 1) g work max_nonce = some r := hr
  exact ⟨r, hr2, hframe b restart _ work max_nonce r hr2⟩

/-! ## The benchmark override -/

/-- C10, what the code does.  With `opt_benchmark` set and an original target whose
word 7 is 0, the scan compares against the relaxed target (word 7 = 0xff), the
digest of nonce `0xFFFFFF00` (word 7 = 0xff, stand-in primitives) passes
`fulltest` against the relaxed target, and the scan still returns 0: the
pre-check uses `Htarg`, read before the override. -/
theorem benchmark_precheck_rejects :
    scanTarget true benchWork.target
        = [4294967295, 4294967295, 4294967295, 4294967295, 4294967295, 4294967295,
            4294967295, 255] ∧
      fulltest (scanDigest toyPrims toyGlobals benchWork 0) (scanTarget true benchWork.target)
        = true ∧
      accepts (benchWork.target.getD 7 0) (scanTarget true benchWork.target)
        (scanDigest toyPrims toyGlobals benchWork 0) = false ∧
      (scanhash_lyra2rev2 toyPrims true (fun _ => false) 1 toyGlobals benchWork 4294967041).map
          (fun r => (r.ret, r.work.target.getD 7 0, r.calls))
        = some (0, 255, [4294967040]) := by
  decide

/-- The pre-check against a stale `Htarg`, for every instance of the primitives:
with `opt_benchmark` set, a first nonce whose digest has word 7 above the
original target's word 7 is not reported, whatever `fulltest` says about the
relaxed target. -/
theorem benchmark_stale_Htarg (P : Prims) (restart : Nat → Bool) (g : Globals) (work : Work)
    (fuel : Nat) (hfirst : work.data.getD 19 0 + 1 < U32)
    (hgt : work.target.getD 7 0 < (scanDigest P g work 0).getD 7 0) :
    ∃ r, scanhash_lyra2rev2 P true restart (fuel + 1) g work (work.data.getD 19 0 + 1) = some r ∧
      r.ret = 0 := by
  have hacc : accepts (work.target.getD 7 0) (scanTarget true work.target)
      (scanDigest P g work 0) = false := by
    rw [accepts, decide_eq_false (Nat.not_le.mpr hgt)]
    rfl
  have hmod : (work.data.getD 19 0 + 0 + 1) % U32 = work.data.getD 19 0 + 1 :=
    Nat.mod_eq_of_lt hfirst
  exact ⟨_, scanhash_exit_at P true restart g work (work.data.getD 19 0 + 1)
    (Nat.le_of_lt hfirst) 0 fuel (fun t ht => absurd ht (Nat.not_lt_zero t)) hacc
    (by rw [hmod]; omega), rfl⟩

/-! ## Thread-local scratch allocation -/

theorem memset_zero_m256i_all (buf : Bytes) (n : Nat) (h : buf.length = 32 * n) :
    memset_zero_m256i buf n = List.replicate (32 * n) 0 := by
  unfold memset_zero_m256i
  rw [List.drop_of_length_le (Nat.le_of_eq h), h, Nat.min_self, List.append_nil]

theorem memset_zero_m128i_all (buf : Bytes) (n : Nat) (h : buf.length = 16 * n) :
    memset_zero_m128i buf n = List.replicate (16 * n) 0 := by
  unfold memset_zero_m128i
  rw [List.drop_of_length_le (Nat.le_of_eq h), h, Nat.min_self, List.append_nil]

theorem memset_all (buf : Bytes) (n : Nat) (h : buf.length = n) :
    memset buf 0 n = List.replicate n 0 := by
  unfold memset
  rw [List.drop_of_length_le (Nat.le_of_eq h), h, Nat.min_self, List.append_nil]

theorem thread_init_of_none (variant : FillVariant) (BLOCK_LEN_INT64 : Nat)
    (mm_malloc : Nat → Nat → Option Bytes)
    (h : mm_malloc (BLOCK_LEN_INT64 * 4 * 8 * 4) 64 = none) :
    lyra2rev2_thread_init variant BLOCK_LEN_INT64 mm_malloc
      = { ret := false, l2v2_wholeMatrix := none,
          requested := (BLOCK_LEN_INT64 * 4 * 8 * 4, 64) } := by
  simp only [lyra2rev2_thread_init, h]

theorem thread_init_of_some (variant : FillVariant) (BLOCK_LEN_INT64 : Nat)
    (mm_malloc : Nat → Nat → Option Bytes) (buf : Bytes)
    (h : mm_malloc (BLOCK_LEN_INT64 * 4 * 8 * 4) 64 = some buf) :
    lyra2rev2_thread_init variant BLOCK_LEN_INT64 mm_malloc
      = { ret := true,
          l2v2_wholeMatrix := some
            (match variant with
              | FillVariant.avx2 => memset_zero_m256i buf (BLOCK_LEN_INT64 * 4 * 8 * 4 / 32)
              | FillVariant.avx => memset_zero_m128i buf (BLOCK_LEN_INT64 * 4 * 8 * 4 / 16)
              | FillVariant.scalar => memset buf 0 (BLOCK_LEN_INT64 * 4 * 8 * 4)),
          requested := (BLOCK_LEN_INT64 * 4 * 8 * 4, 64) } := by
  simp only [lyra2rev2_thread_init, h]

/-- C12 (thread init).  `lyra2rev2_thread_init` returns false exactly when
`_mm_malloc` fails.  It requests `BLOCK_LEN_INT64 * 4 * 8 * 4` bytes, the size of
a matrix of 4 rows and 4 columns, with alignment 64; that count is divisible by
32 and by 16; and when the allocator returns a block of the requested size, the
buffer is all zero in each of the three compile variants. -/
theorem thread_init_spec (variant : FillVariant) (BLOCK_LEN_INT64 : Nat)
    (mm_malloc : Nat → Nat → Option Bytes)
    (hsize : ∀ buf, mm_malloc (BLOCK_LEN_INT64 * 4 * 8 * 4) 64 = some buf →
      buf.length = BLOCK_LEN_INT64 * 4 * 8 * 4) :
    ((lyra2rev2_thread_init variant BLOCK_LEN_INT64 mm_malloc).ret = false ↔
      mm_malloc (BLOCK_LEN_INT64 * 4 * 8 * 4) 64 = none) ∧
    (lyra2rev2_thread_init variant BLOCK_LEN_INT64 mm_malloc).requested
      = (BLOCK_LEN_INT64 * 4 * 8 * 4, 64) ∧
    BLOCK_LEN_INT64 * 4 * 8 * 4 = matrixBytes BLOCK_LEN_INT64 4 4 ∧
    BLOCK_LEN_INT64 * 4 * 8 * 4 % 32 = 0 ∧ BLOCK_LEN_INT64 * 4 * 8 * 4 % 16 = 0 ∧
    ((lyra2rev2_thread_init variant BLOCK_LEN_INT64 mm_malloc).ret = true →
      (lyra2rev2_thread_init variant BLOCK_LEN_INT64 mm_malloc).l2v2_wholeMatrix
        = some (List.replicate (BLOCK_LEN_INT64 * 4 * 8 * 4) 0)) := by
  have h32 : BLOCK_LEN_INT64 * 4 * 8 * 4 = 32 * (BLOCK_LEN_INT64 * 4 * 8 * 4 / 32) := by omega
  have h16 : BLOCK_LEN_INT64 * 4 * 8 * 4 = 16 * (BLOCK_LEN_INT64 * 4 * 8 * 4 / 16) := by omega
  have hmat : BLOCK_LEN_INT64 * 4 * 8 * 4 = matrixBytes BLOCK_LEN_INT64 4 4 := by
    unfold matrixBytes
    omega
  cases hm : mm_malloc (BLOCK_LEN_INT64 * 4 * 8 * 4) 64 with
  | none =>
    rw [thread_init_of_none variant BLOCK_LEN_INT64 mm_malloc hm]
    exact ⟨⟨fun _ => rfl, fun _ => rfl⟩, rfl, hmat, by omega, by omega,
      fun h => absurd h Bool.false_ne_true⟩
  | some buf =>
    have hl := hsize buf hm
    rw [thread_init_of_some variant BLOCK_LEN_INT64 mm_malloc buf hm]
    refine ⟨⟨fun h => absurd h.symm Bool.false_ne_true, fun h => absurd h (by simp)⟩, rfl, hmat,
      by omega, by omega, fun _ => ?_⟩
    cases variant
    · show some (memset_zero_m256i buf (BLOCK_LEN_INT64 * 4 * 8 * 4 / 32)) = _
      rw [memset_zero_m256i_all buf _ (by omega), ← h32]
    · show some (memset_zero_m128i buf (BLOCK_LEN_INT64 * 4 * 8 * 4 / 16)) = _
      rw [memset_zero_m128i_all buf _ (by omega), ← h16]
    · show some (memset buf 0 (BLOCK_LEN_INT64 * 4 * 8 * 4)) = _
      rw [memset_all buf _ hl]

/-- C12 at a concrete input: the AVX2 variant, `BLOCK_LEN_INT64 = 12`, an allocator
that returns 1536 bytes of `0xAA`. -/
theorem thread_init_spec_witness :
    ((lyra2rev2_thread_init FillVariant.avx2 12 toyMalloc).ret = false ↔
      toyMalloc (12 * 4 * 8 * 4) 64 = none) ∧
    (lyra2rev2_thread_init FillVariant.avx2 12 toyMalloc).requested = (12 * 4 * 8 * 4, 64) ∧
    12 * 4 * 8 * 4 = matrixBytes 12 4 4 ∧
    12 * 4 * 8 * 4 % 32 = 0 ∧ 12 * 4 * 8 * 4 % 16 = 0 ∧
    ((lyra2rev2_thread_init FillVariant.avx2 12 toyMalloc).ret = true →
      (lyra2rev2_thread_init FillVariant.avx2 12 toyMalloc).l2v2_wholeMatrix
        = some (List.replicate (12 * 4 * 8 * 4) 0)) :=
  thread_init_spec FillVariant.avx2 12 toyMalloc (by
    intro buf h
    have h3 : toyMalloc (12 * 4 * 8 * 4) 64 = some (List.replicate (12 * 4 * 8 * 4) 170) := rfl
    rw [h3] at h
    rw [← Option.some.inj h, List.length_replicate])

/-! ## The stages of the pipeline -/

/-- C13 (fixed stage order).  The bytes `lyra2rev2_hash` writes to `state` are the
first 32 bytes of `BMW256(Cube2(Skein256(Lyra2REv2(Cube1(Keccak256(Blake256close(
midstate, input)))))))`: every stage after Blake reads 32 bytes of the digest
before it, the memory-hard stage gets one digest as password and salt with
parameters (1, 4, 4) on the thread's scratch matrix, and the matrix it leaves
behind is the new scratch. -/
theorem stage_order (P : Prims) (g : Globals) (input : Bytes) :
    (lyra2rev2_hash P g input).1
      = readBytes (BMW256 P g.lyra2v2_ctx (Cube2 P g.lyra2v2_ctx (Skein256 P g.lyra2v2_ctx
          (Lyra2REv2 P g.l2v2_wholeMatrix (Cube1 P g.lyra2v2_ctx (Keccak256 P g.lyra2v2_ctx
            (Blake256close P g.l2v2_blake_mid input))))))) 0 32 ∧
    (lyra2rev2_hash P g input).2.l2v2_wholeMatrix
      = (P.LYRA2REV2 g.l2v2_wholeMatrix 32
          (readBytes (Cube1 P g.lyra2v2_ctx (Keccak256 P g.lyra2v2_ctx
            (Blake256close P g.l2v2_blake_mid input))) 0 32)
          (readBytes (Cube1 P g.lyra2v2_ctx (Keccak256 P g.lyra2v2_ctx
            (Blake256close P g.l2v2_blake_mid input))) 0 32) 1 4 4).2 ∧
    (∀ d : Bytes, 32 ≤ d.length → (readBytes d 0 32).length = 32) :=
  ⟨rfl, rfl, fun d hd => by simp [readBytes, hd]⟩

/-- C15, the claim as stated fails: with the digest buffers holding two different
`hashA` and the same `hashB`, the bytes handed to `cubehashUpdateDigest` and the
outcome of the step are the same (stand-in primitives). -/
theorem cubehash_input_counterexample :
    cubehash_step_data (List.replicate 32 1) (List.replicate 32 7)
        = cubehash_step_data (List.replicate 32 2) (List.replicate 32 7) ∧
      cubehash_step_data (List.replicate 32 1) (List.replicate 32 7) = List.replicate 32 7 ∧
      cubehash_step toyPrims [] (List.replicate 32 1) (List.replicate 32 7)
        = cubehash_step toyPrims [] (List.replicate 32 2) (List.replicate 32 7) := by
  decide

/-- C15 as amended.  In steps 3 and 6 the CubeHash stage absorbs the 32 bytes of
the current `hashB` only; the current `hashA` is not read, the CubeHash digest
overwrites it, and `hashB` is left as it was.  `lyra2rev2_hash` is the chain of
stages with these two steps at places 3 and 6. -/
theorem cubehash_absorbs_hashB (P : Prims) (g : Globals) (input : Bytes) :
    (∀ sp hashA hashB : Bytes,
      cubehash_step_data hashA hashB = readBytes hashB 0 32 ∧
      (cubehash_step P sp hashA hashB).1 = P.cubehashUpdateDigest sp (readBytes hashB 0 32) ∧
      (cubehash_step P sp hashA hashB).2 = hashB ∧
      ∀ hashA' : Bytes, cubehash_step P sp hashA' hashB = cubehash_step P sp hashA hashB) ∧
    (lyra2rev2_hash P g input).1
      = readBytes (BMW256 P g.lyra2v2_ctx
          (cubehash_step P g.lyra2v2_ctx.cube2
            (Lyra2REv2 P g.l2v2_wholeMatrix
              (cubehash_step P g.lyra2v2_ctx.cube1 (Blake256close P g.l2v2_blake_mid input)
                (Keccak256 P g.lyra2v2_ctx (Blake256close P g.l2v2_blake_mid input))).1)
            (Skein256 P g.lyra2v2_ctx
              (Lyra2REv2 P g.l2v2_wholeMatrix
                (cubehash_step P g.lyra2v2_ctx.cube1 (Blake256close P g.l2v2_blake_mid input)
                  (Keccak256 P g.lyra2v2_ctx
                    (Blake256close P g.l2v2_blake_mid input))).1))).1) 0 32 :=
  ⟨fun _ _ _ => ⟨rfl, rfl, rfl, fun _ => rfl⟩, rfl⟩

/-! ## The input prefix -/

/-- C18 (the first 64 input bytes are not read).  Two inputs that agree on bytes
64..79 give the same digest and leave the same state behind; and, when Blake-256
absorption is incremental, the digest computed after `l2v2_blake256_midstate h`
on any 80-byte input is the from-scratch pipeline digest of the first 64 bytes
of `h` followed by bytes 64..79 of the input. -/
theorem prefix_not_read (P : Prims) (g : Globals) (a b : Bytes)
    (hagree : readBytes a 64 16 = readBytes b 64 16) :
    lyra2rev2_hash P g a = lyra2rev2_hash P g b ∧
    (∀ h : Bytes,
      (∀ c x y : Bytes, x.length = 64 → y.length = 16 →
        P.sph_blake256 (P.sph_blake256 c x) y = P.sph_blake256 c (x ++ y)) →
      64 ≤ h.length → a.length = 80 →
      (lyra2rev2_hash P (l2v2_blake256_midstate P g h) a).1
        = (pipeline_from_scratch P g (readBytes h 0 64 ++ readBytes a 64 16)).1) := by
  constructor
  · simp only [lyra2rev2_hash, hagree]
  · intro h hinc hh ha
    have hx : (readBytes h 0 64).length = 64 := by simp [readBytes, hh]
    have hy : (readBytes a 64 16).length = 16 := by simp [readBytes, ha]
    have hcat : readBytes (readBytes h 0 64 ++ readBytes a 64 16) 0 80
        = readBytes h 0 64 ++ readBytes a 64 16 := by
      simp only [readBytes, List.drop_zero]
      apply List.take_of_length_le
      simp only [readBytes, List.drop_zero] at hx hy
      rw [List.length_append, hx, hy]
    have hmid : P.sph_blake256 (P.sph_blake256 g.lyra2v2_ctx.blake (readBytes h 0 64))
        (readBytes a 64 16)
        = P.sph_blake256 g.lyra2v2_ctx.blake
            (readBytes (readBytes h 0 64 ++ readBytes a 64 16) 0 80) := by
      rw [hcat]
      exact hinc _ _ _ hx hy
    simp only [lyra2rev2_hash, pipeline_from_scratch, l2v2_blake256_midstate, hmid]

/-- C18 at a concrete input: two headers with different first 64 bytes and the
same last 16 bytes, on the stand-in primitives. -/
theorem prefix_not_read_witness :
    lyra2rev2_hash toyPrims toyGlobals (List.replicate 64 1 ++ List.replicate 16 9)
      = lyra2rev2_hash toyPrims toyGlobals (List.replicate 64 2 ++ List.replicate 16 9) ∧
    (∀ h : Bytes,
      (∀ c x y : Bytes, x.length = 64 → y.length = 16 →
        toyPrims.sph_blake256 (toyPrims.sph_blake256 c x) y = toyPrims.sph_blake256 c (x ++ y)) →
      64 ≤ h.length → (List.replicate 64 1 ++ List.replicate 16 9).length = 80 →
      (lyra2rev2_hash toyPrims (l2v2_blake256_midstate toyPrims toyGlobals h)
          (List.replicate 64 1 ++ List.replicate 16 9)).1
        = (pipeline_from_scratch toyPrims toyGlobals
            (readBytes h 0 64 ++ readBytes (List.replicate 64 1 ++ List.replicate 16 9) 64 16)).1) :=
  prefix_not_read toyPrims toyGlobals (List.replicate 64 1 ++ List.replicate 16 9)
    (List.replicate 64 2 ++ List.replicate 16 9) (by decide)

/-! ## The header hashed for a nonce -/

theorem swab32_array_succ (src : List Nat) (n : Nat) :
    swab32_array src (n + 1) = swab32_array src n ++ be32bytes (src.getD n 0) := by
  unfold swab32_array
  rw [List.range_succ, List.flatMap_append, List.flatMap_singleton]

theorem swab32_array_length (src : List Nat) (n : Nat) : (swab32_array src n).length = 4 * n := by
  induction n with
  | zero => rfl
  | succ n ih =>
    rw [swab32_array_succ, List.length_append, ih]
    simp only [be32bytes, List.length_cons, List.length_nil]
    omega

/-- Storing a 32-bit value over the last four bytes of a buffer. -/
theorem be32enc_append (A : Bytes) (a b c d x : Nat) :
    ∀ off, A.length = off → be32enc (A ++ [a, b, c, d]) off x = A ++ be32bytes x := by
  induction A with
  | nil =>
    intro off h
    subst h
    rfl
  | cons y A ih =>
    intro off h
    obtain ⟨o, rfl⟩ : ∃ o, off = o + 1 := ⟨A.length, by simpa using h.symm⟩
    have hA : A.length = o := by simpa using h
    have := ih o hA
    unfold be32enc at this ⊢
    simp only [List.cons_append, Nat.add_right_comm o 1, List.set_cons_succ]
    rw [this]

/-- The nonce store reads its value modulo 2^32. -/
theorem be32enc_mod (e : Bytes) (off x : Nat) : be32enc e off (x % U32) = be32enc e off x := by
  have h1 : x % U32 / 16777216 % 256 = x / 16777216 % 256 := by unfold U32; omega
  have h2 : x % U32 / 65536 % 256 = x / 65536 % 256 := by unfold U32; omega
  have h3 : x % U32 / 256 % 256 = x / 256 % 256 := by unfold U32; omega
  have h4 : x % U32 % 256 = x % 256 := by unfold U32; omega
  unfold be32enc
  rw [h1, h2, h3, h4]

/-- The nonce store leaves every byte outside `off .. off + 3` as it was. -/
theorem be32enc_getD_of_ne (e : Bytes) (off x i : Nat) (h : i < off ∨ off + 4 ≤ i) :
    (be32enc e off x).getD i 0 = e.getD i 0 := by
  unfold be32enc
  simp only [List.getD_eq_getElem?_getD]
  rw [List.getElem?_set_ne (by omega), List.getElem?_set_ne (by omega),
    List.getElem?_set_ne (by omega), List.getElem?_set_ne (by omega)]

theorem be32enc_length (e : Bytes) (off x : Nat) : (be32enc e off x).length = e.length := by
  simp [be32enc]

/-- The buffer the loop hashes for nonce `n` is the header `H_n`. -/
theorem headerFor_eq_specHeader (pdata : List Nat) (n : Nat) :
    headerFor pdata n = specHeader pdata n := by
  unfold headerFor specHeader
  rw [swab32_array_succ]
  exact be32enc_append _ _ _ _ _ n 76 (swab32_array_length pdata 19)

theorem specHeader_length (pdata : List Nat) (n : Nat) : (specHeader pdata n).length = 80 := by
  rw [← headerFor_eq_specHeader, headerFor, be32enc_length, swab32_array_length]

/-- The first 64 bytes of `H_n` are those of the byte-swapped template. -/
theorem specHeader_prefix (pdata : List Nat) (n : Nat) :
    readBytes (specHeader pdata n) 0 64 = readBytes (swab32_array pdata 20) 0 64 := by
  rw [← headerFor_eq_specHeader, headerFor]
  apply List.ext_getElem
  · simp [readBytes, be32enc_length]
  · intro i h1 h2
    have hi : i < 64 := by
      simp only [readBytes, List.drop_zero, List.length_take] at h1
      omega
    have h := be32enc_getD_of_ne (swab32_array pdata 20) 76 n i (Or.inl (by omega))
    simp only [readBytes, List.drop_zero, List.getElem_take]
    have hl : i < (swab32_array pdata 20).length := by
      rw [swab32_array_length]; omega
    have hl2 : i < (be32enc (swab32_array pdata 20) 76 n).length := by
      rw [be32enc_length]; exact hl
    rw [List.getD_eq_getElem?_getD, List.getD_eq_getElem?_getD, List.getElem?_eq_getElem hl,
      List.getElem?_eq_getElem hl2] at h
    exact h

/-- With incremental Blake-256 absorption, a midstate that holds the first 64
bytes of an 80-byte input gives the digest of the from-scratch pipeline. -/
theorem hash_eq_from_scratch (P : Prims) (G : Globals) (x : Bytes)
    (hinc : ∀ c a b : Bytes, a.length = 64 → b.length = 16 →
      P.sph_blake256 (P.sph_blake256 c a) b = P.sph_blake256 c (a ++ b))
    (hlen : x.length = 80)
    (hmid : G.l2v2_blake_mid = P.sph_blake256 G.lyra2v2_ctx.blake (readBytes x 0 64)) :
    (lyra2rev2_hash P G x).1 = (pipeline_from_scratch P G x).1 := by
  have h1 : readBytes x 0 64 = x.take 64 := by simp [readBytes]
  have h2 : readBytes x 64 16 = x.drop 64 := by
    simp only [readBytes]
    apply List.take_of_length_le
    simp [hlen]
  have h3 : readBytes x 0 80 = x.take 64 ++ x.drop 64 := by
    simp only [readBytes, List.drop_zero, List.take_append_drop]
    apply List.take_of_length_le
    simp [hlen]
  have h4 : P.sph_blake256 G.l2v2_blake_mid (readBytes x 64 16)
      = P.sph_blake256 G.lyra2v2_ctx.blake (readBytes x 0 80) := by
    rw [hmid, h1, h2, h3]
    exact hinc _ _ _ (by simp [hlen]) (by simp [hlen])
  simp only [lyra2rev2_hash, pipeline_from_scratch, h4]

/-- Throughout a scan the template set and the midstate are those set at entry. -/
theorem globalsAt_frame (P : Prims) (g : Globals) (work : Work) (k : Nat) :
    (globalsAt P g work k).lyra2v2_ctx = g.lyra2v2_ctx ∧
      (globalsAt P g work k).l2v2_blake_mid
        = P.sph_blake256 g.lyra2v2_ctx.blake (readBytes (swab32_array work.data 20) 0 64) := by
  induction k with
  | zero => exact ⟨rfl, rfl⟩
  | succ k ih => exact ih

/-- C14 (no stale midstate within a scan).  With incremental Blake-256 absorption,
the digest the scan computes at attempt `k`, on nonce `n = (first_nonce + k) mod
2^32`, is the from-scratch pipeline applied to the 80-byte header `H_n`; the
per-nonce store leaves every byte outside offsets 76..79 as it was; and for
`n = first_nonce` the header `H_n` is the byte-swapped copy of the whole
template. -/
theorem midstate_never_stale (P : Prims) (g : Globals) (work : Work) (k : Nat)
    (hinc : ∀ c a b : Bytes, a.length = 64 → b.length = 16 →
      P.sph_blake256 (P.sph_blake256 c a) b = P.sph_blake256 c (a ++ b)) :
    scanDigest P g work k
      = hashWords (pipeline_from_scratch P (globalsAt P g work k)
          (specHeader work.data ((work.data.getD 19 0 + k) % U32))).1 ∧
    (specHeader work.data ((work.data.getD 19 0 + k) % U32)).length = 80 ∧
    (∀ (e : Bytes) (n i : Nat), i < 76 ∨ 80 ≤ i → (be32enc e 76 n).getD i 0 = e.getD i 0) ∧
    specHeader work.data (work.data.getD 19 0) = swab32_array work.data 20 := by
  refine ⟨?_, specHeader_length _ _, fun e n i h => be32enc_getD_of_ne e 76 n i h, ?_⟩
  · have hfr := globalsAt_frame P g work k
    have hhdr : headerFor work.data (work.data.getD 19 0 + k)
        = specHeader work.data ((work.data.getD 19 0 + k) % U32) := by
      rw [← headerFor_eq_specHeader, headerFor, headerFor, be32enc_mod]
    unfold scanDigest
    rw [hhdr, hash_eq_from_scratch P (globalsAt P g work k) _ hinc (specHeader_length _ _)]
    rw [hfr.2, hfr.1, specHeader_prefix]
  · unfold specHeader
    rw [swab32_array_succ]
    rfl

/-- C14 at a concrete input: the third attempt of a scan from nonce 5, on the
stand-in primitives. -/
theorem midstate_never_stale_witness :
    scanDigest toyPrims toyGlobals (workAt 5 easyUpTo7) 2
      = hashWords (pipeline_from_scratch toyPrims (globalsAt toyPrims toyGlobals
          (workAt 5 easyUpTo7) 2)
          (specHeader (workAt 5 easyUpTo7).data
            (((workAt 5 easyUpTo7).data.getD 19 0 + 2) % U32))).1 ∧
    (specHeader (workAt 5 easyUpTo7).data
      (((workAt 5 easyUpTo7).data.getD 19 0 + 2) % U32)).length = 80 ∧
    (∀ (e : Bytes) (n i : Nat), i < 76 ∨ 80 ≤ i → (be32enc e 76 n).getD i 0 = e.getD i 0) ∧
    specHeader (workAt 5 easyUpTo7).data ((workAt 5 easyUpTo7).data.getD 19 0)
      = swab32_array (workAt 5 easyUpTo7).data 20 :=
  midstate_never_stale toyPrims toyGlobals (workAt 5 easyUpTo7) 2
    (fun c a b _ _ => List.append_assoc c a b)

/-! ## Scans that wrap, termination and the frame of a scan -/

/-- Attempts `i, ..., i + j - 1` of a scan that neither match nor end the loop,
with the nonce counted modulo 2^32. -/
theorem scanLoop_skip_wrap (P : Prims) (restart : Nat → Bool) (g : Globals) (work : Work)
    (ptarget : List Nat) (Htarg max_nonce : Nat) :
    ∀ (j fuel i : Nat) (calls : List Nat),
      (∀ t, i ≤ t → t < i + j →
        accepts Htarg ptarget (scanDigest P g work t) = false ∧
          (work.data.getD 19 0 + t + 1) % U32 < max_nonce ∧ restart t = false) →
      scanLoop P restart work.data ptarget (work.data.getD 19 0) Htarg max_nonce (fuel + j) i
          (swab32_array work.data 20) ((work.data.getD 19 0 + i) % U32) (globalsAt P g work i)
          calls
        = scanLoop P restart work.data ptarget (work.data.getD 19 0) Htarg max_nonce fuel (i + j)
            (swab32_array work.data 20) ((work.data.getD 19 0 + (i + j)) % U32)
            (globalsAt P g work (i + j))
            (calls ++ (List.range' i j).map (fun t => (work.data.getD 19 0 + t) % U32)) := by
  intro j
  induction j with
  | zero => intro fuel i calls _; simp
  | succ j ih =>
    intro fuel i calls hall
    obtain ⟨hacc, hlt, hr⟩ := hall i (Nat.le_refl i) (by omega)
    have hhdr : be32enc (swab32_array work.data 20) 76 ((work.data.getD 19 0 + i) % U32)
        = headerFor work.data (work.data.getD 19 0 + i) := be32enc_mod _ _ _
    have hmod : ((work.data.getD 19 0 + i) % U32 + 1) % U32
        = (work.data.getD 19 0 + (i + 1)) % U32 := by
      unfold U32; omega
    have hstep := scanLoop_next P restart work.data ptarget (work.data.getD 19 0) Htarg max_nonce
      (fuel + j) i (swab32_array work.data 20) ((work.data.getD 19 0 + i) % U32)
      (globalsAt P g work i) calls (by rw [hhdr]; exact hacc)
      (by rw [hmod]; exact hlt) hr
    rw [show fuel + (j + 1) = fuel + j + 1 by omega, hstep, hmod, hhdr]
    have hih := ih fuel (i + 1) (calls ++ [(work.data.getD 19 0 + i) % U32])
      (fun t h1 h2 => hall t (by omega) (by omega))
    have hg : (lyra2rev2_hash P (globalsAt P g work i)
        (headerFor work.data (work.data.getD 19 0 + i))).2 = globalsAt P g work (i + 1) := rfl
    rw [hg, hih, show i + 1 + j = i + (j + 1) by omega, List.append_assoc, List.range'_succ]
    rfl

/-- A scan, possibly wrapping, whose attempts `0, ..., k - 1` neither match nor end
the loop and whose attempt `k` does not match and ends the loop. -/
theorem scanhash_exit_at_wrap (P : Prims) (b : Bool) (restart : Nat → Bool) (g : Globals)
    (work : Work) (max_nonce : Nat) (hfirst : work.data.getD 19 0 < U32) (k fuel : Nat)
    (hbefore : ∀ t, t < k →
      accepts (work.target.getD 7 0) (scanTarget b work.target) (scanDigest P g work t) = false ∧
        (work.data.getD 19 0 + t + 1) % U32 < max_nonce ∧ restart t = false)
    (hk : accepts (work.target.getD 7 0) (scanTarget b work.target) (scanDigest P g work k)
      = false)
    (hc : ¬ ((work.data.getD 19 0 + k + 1) % U32 < max_nonce ∧ restart k = false)) :
    scanhash_lyra2rev2 P b restart (fuel + k + 1) g work max_nonce
      = some { ret := 0,
               work := { data := work.data.set 19 ((work.data.getD 19 0 + k + 1) % U32),
                         target := scanTarget b work.target },
               hashes_done := ((work.data.set 19 ((work.data.getD 19 0 + k + 1) % U32)).getD 19 0
                 + U32 - work.data.getD 19 0 + 1) % U32,
               globals := globalsAt P g work (k + 1),
               calls := (List.range' 0 (k + 1)).map
                 (fun t => (work.data.getD 19 0 + t) % U32) } := by
  have hskip := scanLoop_skip_wrap P restart g work (scanTarget b work.target)
    (work.target.getD 7 0) max_nonce k (fuel + 1) 0 [] (fun t _ h2 => hbefore t (by omega))
  have hhdr : be32enc (swab32_array work.data 20) 76 ((work.data.getD 19 0 + k) % U32)
      = headerFor work.data (work.data.getD 19 0 + k) := be32enc_mod _ _ _
  have hmod : ((work.data.getD 19 0 + k) % U32 + 1) % U32
      = (work.data.getD 19 0 + k + 1) % U32 := by
    unfold U32; omega
  have hex := scanLoop_exit P restart work.data (scanTarget b work.target) (work.data.getD 19 0)
    (work.target.getD 7 0) max_nonce fuel k (swab32_array work.data 20)
    ((work.data.getD 19 0 + k) % U32) (globalsAt P g work k)
    ((List.range' 0 k).map (fun t => (work.data.getD 19 0 + t) % U32))
    (by rw [hhdr]; exact hk) (by rw [hmod]; exact hc)
  have hunf : scanhash_lyra2rev2 P b restart (fuel + k + 1) g work max_nonce
      = scanLoop P restart work.data (scanTarget b work.target) (work.data.getD 19 0)
          (work.target.getD 7 0) max_nonce (fuel + 1 + k) 0 (swab32_array work.data 20)
          ((work.data.getD 19 0 + 0) % U32) (globalsAt P g work 0) [] := by
    have h0 : (work.data.getD 19 0 + 0) % U32 = work.data.getD 19 0 := Nat.mod_eq_of_lt hfirst
    rw [show fuel + 1 + k = fuel + k + 1 by omega, h0]; rfl
  rw [hunf, hskip]
  simp only [Nat.zero_add, List.nil_append]
  rw [hex, hmod, hhdr]
  have hcalls : (List.range' 0 k).map (fun t => (work.data.getD 19 0 + t) % U32)
      ++ [(work.data.getD 19 0 + k) % U32]
      = (List.range' 0 (k + 1)).map (fun t => (work.data.getD 19 0 + t) % U32) := by
    rw [List.range'_concat, List.map_append]
    simp
  rw [hcalls]
  rfl

/-- The nonces hashed by a scan that starts at `0xFFFFFFFF` and runs `m` more
attempts. -/
theorem wrapped_calls (m : Nat) (hm : m < U32) :
    (List.range' 0 (m + 1)).map (fun t => (4294967295 + t) % U32)
      = 4294967295 :: List.range' 0 m := by
  rw [List.range'_succ, List.map_cons]
  congr 1
  apply List.ext_getElem
  · simp
  · intro i h1 h2
    have hi : i < m := by simpa using h2
    simp only [List.getElem_map, List.getElem_range']
    unfold U32 at hm ⊢
    omega

/-- What the loop writes to the work item: the target array is the one it was
entered with, and `pdata[19]` is the last nonce hashed on a match, its successor
modulo 2^32 otherwise. -/
theorem scanLoop_work (P : Prims) (restart : Nat → Bool) (pdata ptarget : List Nat)
    (first_nonce Htarg max_nonce : Nat) :
    ∀ (fuel i : Nat) (e : Bytes) (nonce : Nat) (g : Globals) (calls : List Nat) (r : ScanResult),
      scanLoop P restart pdata ptarget first_nonce Htarg max_nonce fuel i e nonce g calls = some r →
      r.work.target = ptarget ∧
        ∃ last, r.calls.getLast? = some last ∧
          ((r.ret = 1 ∧ r.work.data = pdata.set 19 last) ∨
            (r.ret = 0 ∧ r.work.data = pdata.set 19 ((last + 1) % U32))) := by
  intro fuel
  induction fuel with
  | zero => intro i e nonce g calls r h; simp [scanLoop] at h
  | succ f ih =>
    intro i e nonce g calls r h
    cases hacc : accepts Htarg ptarget (hashWords (lyra2rev2_hash P g (be32enc e 76 nonce)).1)
    · by_cases hc : (nonce + 1) % U32 < max_nonce ∧ restart i = false
      · rw [scanLoop_next P restart pdata ptarget first_nonce Htarg max_nonce f i e nonce g calls
          hacc hc.1 hc.2] at h
        exact ih _ _ _ _ _ _ h
      · rw [scanLoop_exit P restart pdata ptarget first_nonce Htarg max_nonce f i e nonce g calls
          hacc hc] at h
        cases h
        exact ⟨rfl, nonce, List.getLast?_concat calls, Or.inr ⟨rfl, rfl⟩⟩
    · rw [scanLoop_hit P restart pdata ptarget first_nonce Htarg max_nonce f i e nonce g calls
        hacc] at h
      cases h
      exact ⟨rfl, nonce, List.getLast?_concat calls, Or.inl ⟨rfl, rfl⟩⟩

/-- C16 (frame of a scan).  Every result of `scanhash_lyra2rev2` has `work->data`
equal to the original with only word 19 rewritten: to the winning nonce (the
last one hashed) when it returns 1, to the loop's final nonce (the successor of
the last one hashed, modulo 2^32) when it returns 0.  The target array is the
original when the benchmark flag is clear (with word 7 overwritten otherwise).
A result exists for every `max_nonce` that is a `uint32_t`. -/
theorem scan_frame (P : Prims) (b : Bool) (restart : Nat → Bool) (g : Globals) (work : Work)
    (max_nonce : Nat) :
    (∀ (fuel : Nat) (r : ScanResult),
      scanhash_lyra2rev2 P b restart fuel g work max_nonce = some r →
      (∃ last, r.calls.getLast? = some last ∧
        ((r.ret = 1 ∧ r.work.data = work.data.set 19 last) ∨
          (r.ret = 0 ∧ r.work.data = work.data.set 19 ((last + 1) % U32)))) ∧
      (∀ i, i ≠ 19 → r.work.data.getD i 0 = work.data.getD i 0) ∧
      r.work.data.length = work.data.length ∧
      r.work.target = scanTarget b work.target ∧
      (b = false → r.work.target = work.target)) ∧
    (max_nonce < U32 → ∀ fuel : Nat,
      ∃ r, scanhash_lyra2rev2 P b restart (fuel + max_nonce + 1) g work max_nonce = some r) := by
  constructor
  · intro fuel r h
    obtain ⟨ht, last, hlast, hdata⟩ := scanLoop_work P restart work.data
      (scanTarget b work.target) (work.data.getD 19 0) (work.target.getD 7 0) max_nonce fuel 0
      (swab32_array work.data 20) (work.data.getD 19 0)
      (l2v2_blake256_midstate P g (swab32_array work.data 20)) [] r h
    have hset : ∃ v, r.work.data = work.data.set 19 v := by
      rcases hdata with h1 | h1
      · exact ⟨_, h1.2⟩
      · exact ⟨_, h1.2⟩
    obtain ⟨v, hv⟩ := hset
    refine ⟨⟨last, hlast, hdata⟩, ?_, ?_, ht, ?_⟩
    · intro i hi
      rw [hv, List.getD_eq_getElem?_getD, List.getD_eq_getElem?_getD,
        List.getElem?_set_ne (Ne.symm hi)]
    · rw [hv, List.length_set]
    · intro hb
      rw [ht, hb]
      rfl
  · intro hmax fuel
    exact scanLoop_returns P restart work.data (scanTarget b work.target)
      (work.data.getD 19 0) (work.target.getD 7 0) max_nonce hmax (fuel + max_nonce + 1) 0
      (swab32_array work.data 20) (work.data.getD 19 0)
      (l2v2_blake256_midstate P g (swab32_array work.data 20)) [] (by split_ifs <;> omega)

/-- C17 (termination).  For every `max_nonce` that is a `uint32_t` the scan returns
with fuel `max_nonce + 1`, whatever the restart flag does.  With `first_nonce ≥
max_nonce` and `first_nonce < 0xFFFFFFFF` it makes a single iteration.  With
`first_nonce = 0xFFFFFFFF`, no matching digest and the restart flag never set,
the nonce wraps to 0 and the loop goes on upward: the nonces hashed are
`0xFFFFFFFF, 0, 1, ..., max_nonce - 1` and it returns 0 with
`pdata[19] = max_nonce`. -/
theorem scanhash_terminates (P : Prims) (b : Bool) (restart : Nat → Bool) (g : Globals)
    (work : Work) (max_nonce fuel : Nat) (hmax : max_nonce < U32) :
    (∃ r, scanhash_lyra2rev2 P b restart (fuel + max_nonce + 1) g work max_nonce = some r) ∧
    (max_nonce ≤ work.data.getD 19 0 → work.data.getD 19 0 + 1 < U32 →
      ∃ r, scanhash_lyra2rev2 P b restart (fuel + 1) g work max_nonce = some r ∧
        r.calls = [work.data.getD 19 0]) ∧
    (work.data.getD 19 0 = 4294967295 →
      (∀ t, t ≤ max_nonce →
        accepts (work.target.getD 7 0) (scanTarget b work.target) (scanDigest P g work t)
          = false) →
      (∀ i, restart i = false) →
      ∃ r, scanhash_lyra2rev2 P b restart (fuel + max_nonce + 1) g work max_nonce = some r ∧
        r.ret = 0 ∧ r.calls = 4294967295 :: List.range' 0 max_nonce ∧
        r.work.data = work.data.set 19 max_nonce) := by
  refine ⟨?_, ?_, ?_⟩
  · exact scanLoop_returns P restart work.data (scanTarget b work.target)
      (work.data.getD 19 0) (work.target.getD 7 0) max_nonce hmax (fuel + max_nonce + 1) 0
      (swab32_array work.data 20) (work.data.getD 19 0)
      (l2v2_blake256_midstate P g (swab32_array work.data 20)) [] (by split_ifs <;> omega)
  · intro hge hfirst
    have hmod : (work.data.getD 19 0 + 0 + 1) % U32 = work.data.getD 19 0 + 1 :=
      Nat.mod_eq_of_lt hfirst
    cases hacc : accepts (work.target.getD 7 0) (scanTarget b work.target)
      (scanDigest P g work 0)
    · exact ⟨_, scanhash_exit_at P b restart g work max_nonce (Nat.le_of_lt hmax) 0 fuel
        (fun t ht => absurd ht (Nat.not_lt_zero t)) hacc (by rw [hmod]; omega), rfl⟩
    · exact ⟨_, scanhash_hit_at P b restart g work max_nonce (Nat.le_of_lt hmax) 0 fuel
        (fun t ht => absurd ht (Nat.not_lt_zero t)) hacc, rfl⟩
  · intro hfirst hnone hr
    have hU : U32 = 4294967296 := rfl
    have hstep : ∀ t, t ≤ max_nonce → (work.data.getD 19 0 + t + 1) % U32 = t := by
      intro t ht
      rw [hfirst, hU]
      rw [hU] at hmax
      omega
    have hrun := scanhash_exit_at_wrap P b restart g work max_nonce (by rw [hfirst, hU]; omega)
      max_nonce fuel
      (fun t ht => ⟨hnone t (Nat.le_of_lt ht), by rw [hstep t (Nat.le_of_lt ht)]; exact ht, hr t⟩)
      (hnone max_nonce (Nat.le_refl _))
      (by rw [hstep max_nonce (Nat.le_refl _)]; omega)
    rw [hstep max_nonce (Nat.le_refl _)] at hrun
    refine ⟨_, hrun, rfl, ?_, rfl⟩
    show (List.range' 0 (max_nonce + 1)).map (fun t => (work.data.getD 19 0 + t) % U32) = _
    rw [hfirst]
    exact wrapped_calls max_nonce hmax

/-- C17 at a concrete input: a scan from `0xFFFFFFFF` with `max_nonce = 3` and a
target no stand-in digest meets hashes `0xFFFFFFFF, 0, 1, 2` and returns 0 with
`pdata[19] = 3`. -/
theorem scanhash_terminates_witness :
    ∃ r, scanhash_lyra2rev2 toyPrims false (fun _ => false) (0 + 3 + 1) toyGlobals
        (workAt 4294967295 (List.replicate 8 0)) 3 = some r ∧
      r.ret = 0 ∧ r.calls = 4294967295 :: List.range' 0 3 ∧
      r.work.data = (workAt 4294967295 (List.replicate 8 0)).data.set 19 3 :=
  (scanhash_terminates toyPrims false (fun _ => false) toyGlobals
    (workAt 4294967295 (List.replicate 8 0)) 3 0 (by decide)).2.2 rfl (by decide)
    (fun _ => rfl)

end Lyra2rev2
